import Mathlib

/-!
# A verification development for `bergolho/kdtree`

The repository consists of one translation unit, `src/main.cpp`.  It reads a point
cloud from a legacy VTK text file, stores the points in a k-d tree through the
`kdtree/kdtree.h` library, asks the tree for the 40 points nearest to a fixed
target and writes them to a second VTK file.

The development has three parts.

* `dist_sq`, `read_cloud_points_from_vtk`, `write_points_in_vtk` and `main` are
  embedded from `src/main.cpp`.
* The k-d tree library is not among the sources.  `Point`, `Subtree`,
  `SpatialIndex`, `ResultSet` and their operations are modelled from sections 3
  and 4 of the specification; each such definition says so in its comment.
* The C library is outside the repository as well.  The conversions `%lf` and `%g`
  are parameters (`Libc`); `%s`, `%u` and white space are defined here.

Conventions.

* A `double` is a rational number: arithmetic is exact.
* An `int` is an integer that is at least `INT_MIN`; an `u_int32_t` is a natural
  number reduced modulo `2 ^ 32`.
* A computation whose behaviour C++ leaves undefined (signed overflow, reading past
  the end of an array, writing past the end of a buffer, using a null stream)
  yields `none`, respectively the outcome `undefined` or `crashed`.
-/

namespace KdTree

/-! ## Part 1. `dist_sq` (main.cpp, lines 94-101) -/

/-- Least value of the C type `int`. -/
def INT_MIN : Int := -2147483648

/-- The loop `while( --dims >= 0 ) { diff = a1[dims] - a2[dims]; dist_sq += diff*diff; }`
of `dist_sq`, entered with `dims = n` where `0 ≤ n`.  With `n = d + 1` the decrement
gives `d ≥ 0`, the body reads `a1[d]` and `a2[d]` and the loop goes on with `dims = d`;
with `n = 0` the decrement gives `-1` and the loop ends.  A read past the end of an
array gives `none`. -/
def dist_sq_loop (a1 a2 : List ℚ) : Nat → ℚ → Option ℚ
  | 0, acc => some acc
  | d + 1, acc =>
    match a1.get? d, a2.get? d with
    | some x, some y => dist_sq_loop a1 a2 d (acc + (x - y) * (x - y))
    | _, _ => none

/-- The function `dist_sq` of main.cpp.  The accumulator starts at `0`.  The first
`--dims` overflows when `dims = INT_MIN`, which is undefined (`none`).  For any other
`dims ≤ 0` the loop body is never run. -/
def dist_sq (a1 a2 : List ℚ) (dims : Int) : Option ℚ :=
  if dims = INT_MIN then none else dist_sq_loop a1 a2 dims.toNat 0

/-! ## Part 2. The spatial index, modelled from the specification -/

/-- Modelled from the spec: the error taxonomy of section 7 of the specification
(the library `kdtree/kdtree.h` is not among the sources). -/
inductive KdError where
  | InvalidDimension
  | AllocationFailure
  | CursorExhausted
deriving DecidableEq, Repr

/-- Modelled from the spec: a Point of section 3, a coordinate vector plus an optional
payload (the library is not among the sources).  The payload is a number that stands
for the caller's reference. -/
structure Point where
  coordinates : List ℚ
  payload : Option Nat
deriving DecidableEq, Repr

/-- Coordinate `i` of a point (`0` when the point has no such coordinate; the index
only holds points with `dims` coordinates and only asks for `i < dims`). -/
def Point.coord (p : Point) (i : Nat) : ℚ := p.coordinates.getD i 0

/-- Modelled from the spec: the squared distance of the glossary and of section 4.3,
"the sum over all dims axes of squared coordinate differences". -/
def sqDist (dims : Nat) (a b : Point) : ℚ :=
  ((List.range dims).map (fun i => (a.coord i - b.coord i) * (a.coord i - b.coord i))).sum

/-- Modelled from the spec: "an owned Node or absent" (section 3).  A Node holds one
Point and owns a left and a right child, each of them a Node or absent.  The split
axis is not stored; it is recomputed from the depth during a traversal. -/
inductive Subtree where
  | absent : Subtree
  | node (value : Point) (left right : Subtree) : Subtree
deriving Repr

/-- The points held by a subtree: the node, then its left, then its right subtree. -/
def Subtree.points : Subtree → List Point
  | .absent => []
  | .node v l r => v :: (l.points ++ r.points)

/-- Modelled from the spec: the SpatialIndex of section 3 with its three fields. -/
structure SpatialIndex where
  dims : Nat
  root : Subtree
  size : Nat
deriving Repr

/-- Modelled from the spec: the ResultSet of section 3, the entries (Point and squared
distance) and the cursor. -/
structure ResultSet where
  entries : List (Point × ℚ)
  cursor : Nat
deriving Repr

/-- Modelled from the spec: section 4.1.  `create` gives an empty index and fails with
`InvalidDimension` when `dims ≤ 0`. -/
def SpatialIndex.create (dims : Int) : Except KdError SpatialIndex :=
  if dims ≤ 0 then .error .InvalidDimension
  else .ok { dims := dims.toNat, root := .absent, size := 0 }

/-- Modelled from the spec: the recursive descent of section 4.2.  At a visited node
the new point goes left when its coordinate on the current axis is `<` the node's and
right otherwise; the axis advances as `(axis + 1) mod dims`; the new node is attached
at the first absent slot. -/
def Subtree.insert (dims : Nat) (p : Point) : Subtree → Nat → Subtree
  | .absent, _ => .node p .absent .absent
  | .node v l r, axis =>
    if p.coord axis < v.coord axis then
      .node v (l.insert dims p ((axis + 1) % dims)) r
    else
      .node v l (r.insert dims p ((axis + 1) % dims))

/-- Modelled from the spec: section 4.2.  `insert` fails with `InvalidDimension` when
the point has not `dims` coordinates; otherwise it attaches a node and increments
`size`.  Resource exhaustion (`AllocationFailure`) is not modelled: memory is
unbounded. -/
def SpatialIndex.insert (t : SpatialIndex) (p : Point) : Except KdError SpatialIndex :=
  if p.coordinates.length ≠ t.dims then .error .InvalidDimension
  else .ok { t with root := t.root.insert t.dims p 0, size := t.size + 1 }

/-- Repeated insertion of a sequence of points, first to last ("the caller builds a
SpatialIndex by repeated insertion of Points", section 2). -/
def SpatialIndex.insertAll (t : SpatialIndex) : List Point → Except KdError SpatialIndex
  | [] => .ok t
  | p :: ps =>
    match t.insert p with
    | .ok t1 => t1.insertAll ps
    | .error e => .error e

/-- The index built from a sequence of points: `create`, then `insertAll`. -/
def SpatialIndex.build (dims : Int) (pts : List Point) : Except KdError SpatialIndex :=
  match SpatialIndex.create dims with
  | .ok t => t.insertAll pts
  | .error e => .error e

/-- Stable insertion into a list of entries that is ascending by squared distance:
the new entry goes after every entry that is not farther than it. -/
def insertByDist (e : Point × ℚ) : List (Point × ℚ) → List (Point × ℚ)
  | [] => [e]
  | x :: xs => if e.2 < x.2 then e :: x :: xs else x :: insertByDist e xs

/-- The "final sort pass" of sections 4.3 and 4.4: a stable ascending sort by squared
distance. -/
def sortByDist (l : List (Point × ℚ)) : List (Point × ℚ) :=
  l.foldl (fun acc x => insertByDist x acc) []

/-- Modelled from the spec: the "current worst (maximum) entry" of the bounded
structure of section 4.3.  The structure is kept as a list ascending by distance
(section 9 allows "a sorted bounded list"), so the worst entry is the last one. -/
def worst (s : List (Point × ℚ)) : Option ℚ := s.getLast?.map Prod.snd

/-- Modelled from the spec: admission into the bounded structure of capacity `k`
(section 4.3).  Below capacity the entry is added; at capacity it replaces the
current worst entry when its distance is smaller, and is dropped otherwise. -/
def offer (k : Nat) (e : Point × ℚ) (s : List (Point × ℚ)) : List (Point × ℚ) :=
  if s.length < k then insertByDist e s
  else
    match worst s with
    | some w => if e.2 < w then insertByDist e s.dropLast else s
    | none => s

/-- Modelled from the spec: the test of section 4.3 for the far child, "either the
structure has fewer than k entries or the hyperplane's squared distance to target is
less than the current worst entry". -/
def farNeeded (k : Nat) (plane : ℚ) (s : List (Point × ℚ)) : Bool :=
  decide (s.length < k) ||
    (match worst s with
     | some w => decide (plane < w)
     | none => false)

/-- Modelled from the spec: the traversal of section 4.3.  The visited node's point is
admitted, then the child on the target's side of the splitting hyperplane is
searched (left when the target's coordinate is `<` the node's, as in insertion), then
the far child when `farNeeded` says so. -/
def searchN (target : Point) (k dims : Nat) :
    Subtree → Nat → List (Point × ℚ) → List (Point × ℚ)
  | .absent, _, s => s
  | .node v l r, axis, s =>
    let s1 := offer k (v, sqDist dims target v) s
    let d := target.coord axis - v.coord axis
    if d < 0 then
      let s2 := searchN target k dims l ((axis + 1) % dims) s1
      if farNeeded k (d * d) s2 then searchN target k dims r ((axis + 1) % dims) s2 else s2
    else
      let s2 := searchN target k dims r ((axis + 1) % dims) s1
      if farNeeded k (d * d) s2 then searchN target k dims l ((axis + 1) % dims) s2 else s2

/-- Modelled from the spec: `nearestN` of section 4.3.  It fails with
`InvalidDimension` on a target of the wrong length, returns an empty ResultSet for
`k = 0` without a traversal, and otherwise drains the bounded structure, sorted
ascending, into a fresh ResultSet whose cursor is `0`. -/
def SpatialIndex.nearestN (t : SpatialIndex) (target : Point) (k : Nat) :
    Except KdError ResultSet :=
  if target.coordinates.length ≠ t.dims then .error .InvalidDimension
  else if k = 0 then .ok { entries := [], cursor := 0 }
  else .ok { entries := sortByDist (searchN target k t.dims t.root 0 []), cursor := 0 }

/-- Modelled from the spec: the traversal of section 4.4.  A visited point is appended
when its squared distance is `≤ radius^2`; the near child is searched; the far child
is searched when the hyperplane's squared distance is `≤ radius^2`. -/
def searchRange (target : Point) (r2 : ℚ) (dims : Nat) :
    Subtree → Nat → List (Point × ℚ) → List (Point × ℚ)
  | .absent, _, acc => acc
  | .node v l r, axis, acc =>
    let acc1 := if sqDist dims target v ≤ r2 then acc ++ [(v, sqDist dims target v)] else acc
    let d := target.coord axis - v.coord axis
    if d < 0 then
      let acc2 := searchRange target r2 dims l ((axis + 1) % dims) acc1
      if d * d ≤ r2 then searchRange target r2 dims r ((axis + 1) % dims) acc2 else acc2
    else
      let acc2 := searchRange target r2 dims r ((axis + 1) % dims) acc1
      if d * d ≤ r2 then searchRange target r2 dims l ((axis + 1) % dims) acc2 else acc2

/-- Modelled from the spec: `nearestInRange` of section 4.4.  It fails with
`InvalidDimension` on a target of the wrong length, gives an empty ResultSet for a
negative radius, and otherwise the visited in-range points after the final sort. -/
def SpatialIndex.nearestInRange (t : SpatialIndex) (target : Point) (radius : ℚ) :
    Except KdError ResultSet :=
  if target.coordinates.length ≠ t.dims then .error .InvalidDimension
  else if radius < 0 then .ok { entries := [], cursor := 0 }
  else .ok { entries := sortByDist (searchRange target (radius * radius) t.dims t.root 0 []),
             cursor := 0 }

/-- Modelled from the spec: `isExhausted` of section 4.5. -/
def ResultSet.isExhausted (rs : ResultSet) : Bool := decide (rs.entries.length ≤ rs.cursor)

/-- Modelled from the spec: `current` of section 4.5; it fails with `CursorExhausted`
past the last entry. -/
def ResultSet.current (rs : ResultSet) : Except KdError (Point × ℚ) :=
  match rs.entries.get? rs.cursor with
  | some e => .ok e
  | none => .error .CursorExhausted

/-- Modelled from the spec: `advance` of section 4.5, a no-op past exhaustion. -/
def ResultSet.advance (rs : ResultSet) : ResultSet :=
  if rs.isExhausted then rs else { rs with cursor := rs.cursor + 1 }


/-- The axis-partition invariant of section 3 of the specification, for a subtree whose
root is split on `axis`: the left subtree holds points with a smaller coordinate on
that axis, the right subtree points with a coordinate that is not smaller, and the
children satisfy the invariant on the next axis. -/
def Subtree.Partitioned (dims : Nat) : Subtree → Nat → Prop
  | .absent, _ => True
  | .node v l r, axis =>
    (∀ p ∈ l.points, p.coord axis < v.coord axis)
      ∧ (∀ p ∈ r.points, v.coord axis ≤ p.coord axis)
      ∧ l.Partitioned dims ((axis + 1) % dims)
      ∧ r.Partitioned dims ((axis + 1) % dims)

/-- A list of entries is ascending by squared distance. -/
def Ascending (s : List (Point × ℚ)) : Prop := s.Pairwise (fun a b => a.2 ≤ b.2)

/-- The state of a k-nearest traversal: `s` is the bounded structure, `seen` the points
dealt with so far (admitted, rejected or skipped with a pruned subtree).  The points
of `s` together with some list `out` of left-out points make up `seen`; every entry
carries its point's squared distance to the target; `s` is ascending; no left-out
point is nearer than an entry; points are left out only at capacity. -/
def KnnInv (k dims : Nat) (target : Point) (s : List (Point × ℚ)) (seen : List Point) :
    Prop :=
  ∃ out : List Point,
    (s.map Prod.fst ++ out).Perm seen
      ∧ (∀ e ∈ s, e.2 = sqDist dims target e.1)
      ∧ Ascending s
      ∧ (∀ e ∈ s, ∀ q ∈ out, e.2 ≤ sqDist dims target q)
      ∧ (out ≠ [] → s.length = k)
      ∧ s.length ≤ k

/-- The entries a range query has to report for a list of points: the points whose
squared distance to the target is at most `r2`, each with that distance. -/
def inRange (target : Point) (r2 : ℚ) (dims : Nat) (ps : List Point) : List (Point × ℚ) :=
  (ps.filter (fun p => decide (sqDist dims target p ≤ r2))).map
    (fun p => (p, sqDist dims target p))

/-! ## Part 3. Files, `read_cloud_points_from_vtk`, `write_points_in_vtk` and `main` -/

/-- The two conversions of the C library that the program applies to a `double`.
`scan_lf t` is what `%lf` does with the white-space delimited token `t`: the value it
assigns, if any, and the part of the token it leaves unread.  `fmt_g x` is the text
`%g` prints for `x`. -/
structure Libc where
  scan_lf : String → Option ℚ × String
  fmt_g : ℚ → String

/-- What the surroundings of the program supply: the C library, whether the program
was compiled with `NDEBUG`, the files `fopen(path, "r")` can open with their content,
the paths `fopen(path, "w+")` can open, and the values found in the variables that
`read_cloud_points_from_vtk` declares without initialising them (`np`, and `pos` in
iteration `i`). -/
structure Env where
  libc : Libc
  ndebug : Bool
  file : String → Option String
  writable : String → Bool
  np_garbage : Nat
  pos_garbage : Nat → ℚ × ℚ × ℚ

/-- White space as `fscanf` sees it (`isspace` in the C locale). -/
def isSpace (c : Char) : Bool :=
  c = ' ' || c = '\t' || c = '\n' || c = '\x0b' || c = '\x0c' || c = '\r'

/-- The tokens of a text: its maximal runs of characters that are not white space.
Every `fscanf` conversion of the program skips leading white space and stops at white
space, so `fscanf` reads a file token by token. -/
def tokensOf (cs : List Char) : List String :=
  ((cs.splitOnP isSpace).filter (fun t => !t.isEmpty)).map String.mk

/-- The tokens of the content of a file. -/
def tokens (s : String) : List String := tokensOf s.data

/-- What is left of a token after a conversion stays in the stream in front of the
other tokens. -/
def unread (rest : String) (ts : List String) : List String :=
  if rest.data = [] then ts else rest :: ts

/-- The number a run of decimal digits denotes. -/
def digitsValue (ds : List Char) : Nat :=
  ds.foldl (fun n c => 10 * n + (c.toNat - 48)) 0

/-- The conversion `%u` into an `u_int32_t`, applied to a token: an optional sign and
the longest run of decimal digits.  `some (none, rest)` when there is no digit (nothing
is assigned), `some (some v, rest)` when the digits denote `v` and `v` fits the object,
with `rest` the unread part of the token.  The C standard leaves the behaviour
undefined when the result of the conversion cannot be represented in the object: a
value of `2 ^ 32` or more, and a negated value other than `0`, give `none`. -/
def scan_u (t : String) : Option (Option Nat × String) :=
  let signed := decide (t.data.head? = some '-') || decide (t.data.head? = some '+')
  let negative := decide (t.data.head? = some '-')
  let body := if signed then t.data.tail else t.data
  let ds := body.takeWhile Char.isDigit
  let v := digitsValue ds
  if ds = [] then some (none, String.mk body)
  else if decide (2 ^ 32 ≤ v) || (negative && decide (v ≠ 0)) then none
  else some (some v, String.mk (body.dropWhile Char.isDigit))

/-- The C string a buffer holds after `%s` has stored a token in it: the bytes of the
token up to its first zero byte, which is where `strcmp` stops reading. -/
def cString (t : String) : String :=
  String.mk (t.data.takeWhile (fun c => decide (c ≠ Char.ofNat 0)))

/-- The loop `while (fscanf(file,"%s",str) != EOF) if (strcmp(str,"POINTS") == 0) break;`
with `char str[200]`: the tokens left in the stream when the loop ends.  A token of 200
bytes or more does not fit `str` with its terminating zero: `none`.  `strcmp` compares
the C string in `str`, the token up to its first zero byte. -/
def skipToPoints : List String → Option (List String)
  | [] => some []
  | t :: ts =>
    if 200 ≤ t.utf8ByteSize then none
    else if cString t = "POINTS" then some ts
    else skipToPoints ts

/-- The call `fscanf(file,"%u %s",&np,str)`: the value of `np` after the call and the
tokens left.  At the end of the file, and when the next token does not start with a
number, `np` keeps the value `np0` it had.  `none` when the number cannot be
represented in `np` and when the token read by `%s` does not fit `str`. -/
def scanCount (np0 : Nat) : List String → Option (Nat × List String)
  | [] => some (np0, [])
  | t :: ts =>
    match scan_u t with
    | none => none
    | some (none, rest) => some (np0, unread rest ts)
    | some (some n, rest) =>
      match unread rest ts with
      | [] => some (n, [])
      | tag :: ts1 => if 200 ≤ tag.utf8ByteSize then none else some (n, ts1)

/-- The call `fscanf(file,"%lf %lf %lf",&pos[0],&pos[1],&pos[2])`: the content of `pos`
after the call and the tokens left.  The call stops at the first conversion that
fails; the elements of `pos` it has not assigned keep their values. -/
def scanTriple (lf : String → Option ℚ × String) (pos : ℚ × ℚ × ℚ) :
    List String → (ℚ × ℚ × ℚ) × List String
  | [] => (pos, [])
  | a :: ts =>
    match lf a with
    | (none, rest) => (pos, unread rest ts)
    | (some x, rest) =>
      match unread rest ts with
      | [] => ((x, pos.2.1, pos.2.2), [])
      | b :: ts1 =>
        match lf b with
        | (none, rest1) => ((x, pos.2.1, pos.2.2), unread rest1 ts1)
        | (some y, rest1) =>
          match unread rest1 ts1 with
          | [] => ((x, y, pos.2.2), [])
          | c :: ts2 =>
            match lf c with
            | (none, rest2) => ((x, y, pos.2.2), unread rest2 ts2)
            | (some z, rest2) => ((x, y, z), unread rest2 ts2)

/-- The loop `for (u_int32_t i = 0; i < np; i++) { double pos[3]; fscanf(...);
out.push_back({pos[0],pos[1],pos[2]}); }` with `n` iterations to go, the next one
being iteration `i`. -/
def readLoop (env : Env) : Nat → Nat → List String → List (List ℚ) → List (List ℚ)
  | 0, _, _, out => out
  | n + 1, i, ts, out =>
    match scanTriple env.libc.scan_lf (env.pos_garbage i) ts with
    | (pos, ts1) => readLoop env n (i + 1) ts1 (out ++ [[pos.1, pos.2.1, pos.2.2]])

/-- How a call of `read_cloud_points_from_vtk` ends: it returns a sequence of points, or
it prints its diagnostic and calls `exit(EXIT_FAILURE)`, or its behaviour is undefined
(it overruns `str`, or `%u` meets a count that `np` cannot hold). -/
inductive ReadResult where
  | returned (points : List (List ℚ))
  | exitFailure
  | undefined
deriving DecidableEq, Repr

/-- The function `read_cloud_points_from_vtk` of main.cpp (lines 103-125). -/
def read_cloud_points_from_vtk (env : Env) (filename : String) : ReadResult :=
  match env.file filename with
  | none => .exitFailure
  | some content =>
    match skipToPoints (tokens content) with
    | none => .undefined
    | some ts =>
      match scanCount (env.np_garbage % 2 ^ 32) ts with
      | none => .undefined
      | some (np, ts1) => .returned (readLoop env np 0 ts1 [])

/-- One call `fprintf(file,"%g %g %g\n",in[i][0],in[i][1],in[i][2])`: the line printed,
without its newline; `none` when the point has fewer than three coordinates. -/
def coordLine (g : ℚ → String) (p : List ℚ) : Option String :=
  match p.get? 0, p.get? 1, p.get? 2 with
  | some x, some y, some z => some (g x ++ " " ++ g y ++ " " ++ g z)
  | _, _, _ => none

/-- The first loop of `write_points_in_vtk`, `for (i = 0; i < np; i++) fprintf(...)`,
with `n` iterations to go, the next one being iteration `i`. -/
def coordLines (g : ℚ → String) (pts : List (List ℚ)) : Nat → Nat → Option (List String)
  | 0, _ => some []
  | n + 1, i =>
    match pts.get? i with
    | none => none
    | some p =>
      match coordLine g p, coordLines g pts n (i + 1) with
      | some l, some ls => some (l :: ls)
      | _, _ => none

/-- The second loop of `write_points_in_vtk`, one line `1 i` for `i = 0 .. np - 1`. -/
def vertexLines (np : Nat) : List String :=
  (List.range np).map (fun i => "1 " ++ Nat.repr i)

/-- How a call of `write_points_in_vtk` ends: with the lines it has written (each
`fprintf` of the function prints one line), or in a use of the null stream when the
file cannot be opened, or in a read past the end of a point. -/
inductive WriteResult where
  | written (lines : List String)
  | crashed
  | undefined
deriving DecidableEq, Repr

/-- The function `write_points_in_vtk` of main.cpp (lines 134-151).  `np` is
`in.size()` converted to `u_int32_t`; the product `np*2` is computed in `u_int32_t`. -/
def write_points_in_vtk (env : Env) (filename : String) (pts : List (List ℚ)) :
    WriteResult :=
  let np := pts.length % 2 ^ 32
  if env.writable filename then
    match coordLines env.libc.fmt_g pts np 0 with
    | none => .undefined
    | some coords =>
      .written (["# vtk DataFile Version 4.1", "vtk output", "ASCII", "DATASET POLYDATA",
          "POINTS " ++ Nat.repr np ++ " float"]
        ++ coords
        ++ ["VERTICES " ++ Nat.repr np ++ " " ++ Nat.repr (np * 2 % 2 ^ 32)]
        ++ vertexLines np)
  else .crashed

/-- The content of a file made of the given lines, each ended by a newline. -/
def fileContent : List String → String
  | [] => ""
  | l :: ls => l ++ "\n" ++ fileContent ls

/-- The points `x[0] x[1] x[2]`, `x[3] x[4] x[5]`, ... of a sequence of numbers. -/
def triples : List ℚ → List (List ℚ)
  | a :: b :: c :: rest => [a, b, c] :: triples rest
  | _ => []

/-- The text `fprintf(file,"%g %g %g\n",...)` prints, without the newline, for a point
with the coordinates `p[0]`, `p[1]`, `p[2]`. -/
def tripleText (g : ℚ → String) (p : List ℚ) : String :=
  g (p.getD 0 0) ++ " " ++ g (p.getD 1 0) ++ " " ++ g (p.getD 2 0)

/-- The surroundings after a file has been put at `path` with the given content. -/
def Env.withFile (env : Env) (path content : String) : Env :=
  { env with file := fun p => if p = path then some content else env.file p }

/-- Modelled from the spec: `kd_create` of the absent library, the `create` of section
4.1. -/
def kd_create (k : Int) : Except KdError SpatialIndex := SpatialIndex.create k

/-- Modelled from the spec: `kd_insert3` of the absent library, the `insert` of section
4.2 for the point `(x, y, z)` with the given payload. -/
def kd_insert3 (tree : SpatialIndex) (x y z : ℚ) (data : Option Nat) :
    Except KdError SpatialIndex :=
  tree.insert { coordinates := [x, y, z], payload := data }

/-- Modelled from the spec: `kd_nearest_n` of the absent library, the `nearestN` of
section 4.3. -/
def kd_nearest_n (tree : SpatialIndex) (pos : List ℚ) (num : Nat) :
    Except KdError ResultSet :=
  tree.nearestN { coordinates := pos, payload := none } num

/-- Modelled from the spec: `kd_nearest_range` of the absent library, the
`nearestInRange` of section 4.4. -/
def kd_nearest_range (tree : SpatialIndex) (pos : List ℚ) (range : ℚ) :
    Except KdError ResultSet :=
  tree.nearestInRange { coordinates := pos, payload := none } range

/-- The loop `for (i = 0; i < points.size(); i++) assert( 0 == kd_insert3(ptree,
points[i][0], points[i][1], points[i][2], NULL) );` of `main`.  With `NDEBUG` the
macro `assert` expands to nothing and its argument, the call of `kd_insert3`, is not
evaluated.  Without `NDEBUG` a failed insertion ends the program (`none`).  The
sequence comes from `read_cloud_points_from_vtk`, so it has fewer than `2 ^ 32`
elements and `i` does not wrap. -/
def insertLoop (ndebug : Bool) (ptree : SpatialIndex) : List (List ℚ) → Option SpatialIndex
  | [] => some ptree
  | p :: ps =>
    if ndebug then insertLoop ndebug ptree ps
    else
      match p.get? 0, p.get? 1, p.get? 2 with
      | some x, some y, some z =>
        match kd_insert3 ptree x y z none with
        | .ok t => insertLoop ndebug t ps
        | .error _ => none
      | _, _, _ => none

/-- The loop `while( !kd_res_end( presults ) ) { kd_res_item( presults, pos ); ...
nearest_points.push_back({pos[0], pos[1], pos[2]}); kd_res_next( presults ); }` of
`main`, run for at most `fuel` iterations; `kd_res_end`, `kd_res_item` and
`kd_res_next` are the `isExhausted`, `current` and `advance` of section 4.5.  The
distance the loop computes with `dist_sq(pt, pos, 3)` only goes to `printf` and is left
out.  `none` when the fuel does not suffice or `current` fails. -/
def drainLoop : Nat → ResultSet → List (List ℚ) → Option (List (List ℚ))
  | 0, rs, acc => if rs.isExhausted then some acc else none
  | fuel + 1, rs, acc =>
    if rs.isExhausted then some acc
    else
      match rs.current with
      | .ok (p, _) => drainLoop fuel rs.advance (acc ++ [[p.coord 0, p.coord 1, p.coord 2]])
      | .error _ => none

/-- How a run of the program ends: `exited n` is a return from `main` or a call of
`exit` with status `n`; `aborted` is a failed `assert`; `crashed` is the use of a null
pointer; `undefined` is a buffer overrun. -/
inductive Outcome where
  | exited (status : Nat)
  | aborted
  | crashed
  | undefined
deriving DecidableEq, Repr

/-- What a run of `main` did: how it ended, the path it gave to `fopen` for reading,
the points it read, the index it passed to `kd_nearest_n`, the result set it got, and
the path and lines of the file it wrote.  A field is `none` when the run did not get
that far.  Standard output is not recorded. -/
structure Run where
  outcome : Outcome
  opened : Option String
  points : Option (List (List ℚ))
  index : Option SpatialIndex
  results : Option ResultSet
  output : Option (String × List String)

/-- The target `double pt[3] = { 19234.4, 19886, 15900.9 }` of `main`. -/
def pt : List ℚ := [192344 / 10, 19886, 159009 / 10]

/-- The path in `char *filename = "inputs/surface_cloud_points.vtk"`. -/
def inputPath : String := "inputs/surface_cloud_points.vtk"

/-- The path in `write_points_in_vtk("outputs/nearest_points.vtk",nearest_points)`. -/
def outputPath : String := "outputs/nearest_points.vtk"

/-- The function `main` of main.cpp (lines 26-92); `argv` holds the program name and
the arguments, `argc` is its length.  `EXIT_FAILURE` is `1`. -/
def main (env : Env) (argv : List String) : Run :=
  if (argv.length : Int) - 1 ≠ 1 then
    { outcome := .exited 1, opened := none, points := none, index := none,
      results := none, output := none }
  else
    match read_cloud_points_from_vtk env inputPath with
    | .exitFailure =>
      { outcome := .exited 1, opened := some inputPath, points := none, index := none,
        results := none, output := none }
    | .undefined =>
      { outcome := .undefined, opened := some inputPath, points := none, index := none,
        results := none, output := none }
    | .returned points =>
      match kd_create 3 with
      | .error _ =>
        { outcome := .crashed, opened := some inputPath, points := some points,
          index := none, results := none, output := none }
      | .ok ptree0 =>
        match insertLoop env.ndebug ptree0 points with
        | none =>
          { outcome := .aborted, opened := some inputPath, points := some points,
            index := none, results := none, output := none }
        | some ptree =>
          match kd_nearest_n ptree pt 40 with
          | .error _ =>
            { outcome := .crashed, opened := some inputPath, points := some points,
              index := some ptree, results := none, output := none }
          | .ok presults =>
            match drainLoop presults.entries.length presults [] with
            | none =>
              { outcome := .crashed, opened := some inputPath, points := some points,
                index := some ptree, results := some presults, output := none }
            | some nearest_points =>
              match write_points_in_vtk env outputPath nearest_points with
              | .written lines =>
                { outcome := .exited 0, opened := some inputPath, points := some points,
                  index := some ptree, results := some presults,
                  output := some (outputPath, lines) }
              | .crashed =>
                { outcome := .crashed, opened := some inputPath, points := some points,
                  index := some ptree, results := some presults, output := none }
              | .undefined =>
                { outcome := .undefined, opened := some inputPath, points := some points,
                  index := some ptree, results := some presults, output := none }

/-! ## Example surroundings -/

/-- A small C library for the examples: `%lf` reads a token made of decimal digits as
the number it denotes and fails on any other token; `%g` prints the integer part of a
non-negative number in decimal. -/
def exampleLibc : Libc where
  scan_lf := fun t =>
    if t.data ≠ [] ∧ t.data.all Char.isDigit = true then (some (digitsValue t.data : ℚ), "")
    else (none, t)
  fmt_g := fun x => Nat.repr x.floor.toNat

/-- Surroundings for the examples: the file at `path` has the given content and no
other file exists, every path can be written, the uninitialised `np` holds `2` and the
uninitialised `pos` holds `(7, 7, 7)`. -/
def exampleEnv (path content : String) (ndebug : Bool) : Env where
  libc := exampleLibc
  ndebug := ndebug
  file := fun p => if p = path then some content else none
  writable := fun _ => true
  np_garbage := 2
  pos_garbage := fun _ => (7, 7, 7)

/-- A token of `n` letters `a`. -/
def longToken (n : Nat) : String := String.mk (List.replicate n 'a')

/-! ## Theorems about `dist_sq` -/

theorem dist_sq_loop_eq (a1 a2 : List ℚ) (n : Nat) (acc : ℚ)
    (h1 : n ≤ a1.length) (h2 : n ≤ a2.length) :
    dist_sq_loop a1 a2 n acc
      = some (acc + ∑ i in Finset.range n, (a1.getD i 0 - a2.getD i 0) ^ 2) := by
  induction n generalizing acc with
  | zero => simp [dist_sq_loop]
  | succ d ih =>
    have hx : a1.get? d = some (a1.getD d 0) := by
      rw [List.getD_eq_getElem?_getD, List.get?_eq_getElem?,
        List.getElem?_eq_getElem (by omega)]; rfl
    have hy : a2.get? d = some (a2.getD d 0) := by
      rw [List.getD_eq_getElem?_getD, List.get?_eq_getElem?,
        List.getElem?_eq_getElem (by omega)]; rfl
    rw [dist_sq_loop, hx, hy]
    simp only []
    rw [ih _ (by omega) (by omega), Finset.sum_range_succ]
    congr 1; ring

theorem dist_sq_loop_take (a1 a2 : List ℚ) (n m : Nat) (acc : ℚ) (h : n ≤ m) :
    dist_sq_loop (a1.take m) (a2.take m) n acc = dist_sq_loop a1 a2 n acc := by
  induction n generalizing acc with
  | zero => simp [dist_sq_loop]
  | succ d ih =>
    have hx : (a1.take m).get? d = a1.get? d := by
      simp [List.get?_eq_getElem?, List.getElem?_take]; omega
    have hy : (a2.take m).get? d = a2.get? d := by
      simp [List.get?_eq_getElem?, List.getElem?_take]; omega
    rw [dist_sq_loop, dist_sq_loop, hx, hy]
    cases a1.get? d <;> cases a2.get? d <;> simp [ih _ (by omega : d ≤ m)]

/-- The value of `dist_sq` for every `dims` whose first decrement does not overflow. -/
theorem dist_sq_eq (a1 a2 : List ℚ) (dims : Int) (hmin : INT_MIN < dims)
    (h1 : dims.toNat ≤ a1.length) (h2 : dims.toNat ≤ a2.length) :
    dist_sq a1 a2 dims
      = some (∑ i in Finset.range dims.toNat, (a1.getD i 0 - a2.getD i 0) ^ 2) := by
  simp only [dist_sq, if_neg (ne_of_gt hmin)]
  rw [dist_sq_loop_eq a1 a2 _ 0 h1 h2, zero_add]

/-- For a negative `dims` other than `INT_MIN`, and for `0`, the loop body of `dist_sq` is
never run and the result is `0`, whatever the arrays. -/
theorem dist_sq_nonpositive (a1 a2 : List ℚ) (dims : Int) (hmin : INT_MIN < dims)
    (h0 : dims ≤ 0) : dist_sq a1 a2 dims = some 0 := by
  rw [dist_sq_eq a1 a2 dims hmin (by omega) (by omega), Int.toNat_eq_zero.mpr h0]
  simp

/-- At `dims = INT_MIN` the first `--dims` overflows: no result is defined. -/
theorem dist_sq_int_min (a1 a2 : List ℚ) : dist_sq a1 a2 INT_MIN = none := by
  simp [dist_sq]

/-- C10: for every `dims ≥ 0` and every two arrays with at least `dims` elements,
`dist_sq a1 a2 dims` returns the sum over `i` in `[0, dims)` of `(a1[i] - a2[i])^2`; it
reads no index outside `[0, dims)` (the result is the same when both arrays are cut to
their first `dims` elements, where any other read would fail); it is `0` for `dims ≤ 0`,
non-negative, symmetric in `a1` and `a2`, and `0` when the arrays agree on their first
`dims` elements. -/
theorem dist_sq_sum (a1 a2 : List ℚ) (dims : Int) (hdims : 0 ≤ dims)
    (h1 : dims ≤ a1.length) (h2 : dims ≤ a2.length) :
    dist_sq a1 a2 dims
        = some (∑ i in Finset.range dims.toNat, (a1.getD i 0 - a2.getD i 0) ^ 2)
      ∧ dist_sq (a1.take dims.toNat) (a2.take dims.toNat) dims = dist_sq a1 a2 dims
      ∧ (dims ≤ 0 → dist_sq a1 a2 dims = some 0)
      ∧ (∀ v, dist_sq a1 a2 dims = some v → 0 ≤ v)
      ∧ dist_sq a2 a1 dims = dist_sq a1 a2 dims
      ∧ ((∀ i, i < dims.toNat → a1.getD i 0 = a2.getD i 0) → dist_sq a1 a2 dims = some 0) := by
  have hmin : INT_MIN < dims := lt_of_lt_of_le (by decide) hdims
  have hne : dims ≠ INT_MIN := ne_of_gt hmin
  have hn1 : dims.toNat ≤ a1.length := by omega
  have hn2 : dims.toNat ≤ a2.length := by omega
  have key := dist_sq_eq a1 a2 dims hmin hn1 hn2
  refine ⟨key, ?_, dist_sq_nonpositive a1 a2 dims hmin, ?_, ?_, ?_⟩
  · simp only [dist_sq, if_neg hne]
    exact dist_sq_loop_take a1 a2 _ _ 0 le_rfl
  · intro v hv
    rw [key] at hv
    cases hv
    exact Finset.sum_nonneg (fun i _ => sq_nonneg _)
  · rw [key, dist_sq_eq a2 a1 dims hmin hn2 hn1]
    congr 1
    exact Finset.sum_congr rfl (fun i _ => by ring)
  · intro hag
    rw [key]
    congr 1
    apply Finset.sum_eq_zero
    intro i hi
    rw [hag i (Finset.mem_range.mp hi)]
    simp

/-- Witness for `dist_sq_sum`: the call `dist_sq(pt, pos, 3)` on two concrete triples. -/
theorem dist_sq_sum_witness :
    (0 : Int) ≤ 3
      ∧ dist_sq [1, 2, 3] [0, 0, 1] 3
          = some (∑ i in Finset.range (3 : Int).toNat,
              (([1, 2, 3] : List ℚ).getD i 0 - ([0, 0, 1] : List ℚ).getD i 0) ^ 2)
      ∧ dist_sq [1, 2, 3] [0, 0, 1] 3 = some 9 :=
  ⟨by decide,
    (dist_sq_sum [1, 2, 3] [0, 0, 1] 3 (by decide) (by decide) (by decide)).1,
    by norm_num [dist_sq, dist_sq_loop, INT_MIN]⟩

/-! ## Theorems about the spatial index -/

theorem points_insert (dims : Nat) (p : Point) (t : Subtree) (axis : Nat) :
    (t.insert dims p axis).points.Perm (p :: t.points) := by
  induction t generalizing axis with
  | absent => simp [Subtree.insert, Subtree.points]
  | node v l r ihl ihr =>
    simp only [Subtree.insert]
    split
    · simp only [Subtree.points]
      have h := ihl ((axis + 1) % dims)
      refine ((h.append_right r.points).cons v).trans ?_
      exact List.Perm.swap _ _ _
    · simp only [Subtree.points]
      have h := ihr ((axis + 1) % dims)
      refine List.Perm.trans ((List.Perm.append_left l.points h).cons v) ?_
      refine List.Perm.trans (List.Perm.cons v List.perm_middle) ?_
      exact List.Perm.swap _ _ _

theorem partitioned_insert (dims : Nat) (p : Point) (t : Subtree) (axis : Nat)
    (h : t.Partitioned dims axis) : (t.insert dims p axis).Partitioned dims axis := by
  induction t generalizing axis with
  | absent => simp [Subtree.insert, Subtree.Partitioned, Subtree.points]
  | node v l r ihl ihr =>
    obtain ⟨hl, hr, pl, pr⟩ := h
    simp only [Subtree.insert]
    split
    · rename_i hlt
      refine ⟨?_, hr, ihl _ pl, pr⟩
      intro q hq
      rcases List.mem_cons.mp ((points_insert dims p l _).mem_iff.mp hq) with rfl | hq
      · exact hlt
      · exact hl q hq
    · rename_i hge
      refine ⟨hl, ?_, pl, ihr _ pr⟩
      intro q hq
      rcases List.mem_cons.mp ((points_insert dims p r _).mem_iff.mp hq) with rfl | hq
      · exact not_lt.mp hge
      · exact hr q hq

theorem insertAll_ok (pts : List Point) (t : SpatialIndex)
    (hpts : ∀ p ∈ pts, p.coordinates.length = t.dims) (hpart : t.root.Partitioned t.dims 0) :
    ∃ t1, t.insertAll pts = .ok t1 ∧ t1.dims = t.dims ∧ t1.size = t.size + pts.length
      ∧ t1.root.points.Perm (pts ++ t.root.points) ∧ t1.root.Partitioned t1.dims 0 := by
  induction pts generalizing t with
  | nil => exact ⟨t, rfl, rfl, by simp, by simp, hpart⟩
  | cons p ps ih =>
    have hp : p.coordinates.length = t.dims := hpts p (List.mem_cons_self _ _)
    have hins : t.insert p
        = .ok { t with root := t.root.insert t.dims p 0, size := t.size + 1 } := by
      simp [SpatialIndex.insert, hp]
    obtain ⟨t1, h1, hd, hs, hperm, hpar⟩ :=
      ih { t with root := t.root.insert t.dims p 0, size := t.size + 1 }
        (fun q hq => hpts q (List.mem_cons_of_mem _ hq))
        (partitioned_insert _ _ _ _ hpart)
    refine ⟨t1, ?_, hd, ?_, ?_, hpar⟩
    · simp only [SpatialIndex.insertAll, hins, h1]
    · simp only [List.length_cons] at hs ⊢; omega
    · refine hperm.trans ?_
      refine (List.Perm.append_left ps (points_insert _ _ _ _)).trans ?_
      exact List.perm_middle

theorem build_ok (pts : List Point) (hpts : ∀ p ∈ pts, p.coordinates.length = 3) :
    ∃ idx, SpatialIndex.build 3 pts = .ok idx ∧ idx.dims = 3 ∧ idx.size = pts.length
      ∧ idx.root.points.Perm pts ∧ idx.root.Partitioned 3 0 := by
  obtain ⟨t1, h1, hd, hs, hperm, hpar⟩ :=
    insertAll_ok pts { dims := 3, root := .absent, size := 0 } hpts
      (by simp [Subtree.Partitioned])
  refine ⟨t1, ?_, hd, by simpa using hs, by simpa [Subtree.points] using hperm, ?_⟩
  · simp only [SpatialIndex.build, SpatialIndex.create]
    exact h1
  · have hd3 : t1.dims = 3 := hd
    rw [← hd3]; exact hpar

theorem insertByDist_perm (e : Point × ℚ) (s : List (Point × ℚ)) :
    (insertByDist e s).Perm (e :: s) := by
  induction s with
  | nil => simp [insertByDist]
  | cons x xs ih =>
    simp only [insertByDist]
    split
    · exact List.Perm.refl _
    · exact (ih.cons x).trans (List.Perm.swap _ _ _)

theorem insertByDist_ascending (e : Point × ℚ) (s : List (Point × ℚ)) (h : Ascending s) :
    Ascending (insertByDist e s) := by
  induction s with
  | nil => simp [insertByDist, Ascending]
  | cons x xs ih =>
    have hx := List.pairwise_cons.mp h
    simp only [insertByDist]
    split
    · rename_i hlt
      refine List.pairwise_cons.mpr ⟨?_, h⟩
      intro b hb
      rcases List.mem_cons.mp hb with rfl | hb
      · exact le_of_lt hlt
      · exact le_trans (le_of_lt hlt) (hx.1 b hb)
    · rename_i hge
      refine List.pairwise_cons.mpr ⟨?_, ih hx.2⟩
      intro b hb
      rcases List.mem_cons.mp ((insertByDist_perm e xs).mem_iff.mp hb) with rfl | hb
      · exact not_lt.mp hge
      · exact hx.1 b hb

theorem sortByDist_aux (l acc : List (Point × ℚ)) (h : Ascending acc) :
    (l.foldl (fun a x => insertByDist x a) acc).Perm (acc ++ l)
      ∧ Ascending (l.foldl (fun a x => insertByDist x a) acc) := by
  induction l generalizing acc with
  | nil => simpa using h
  | cons x xs ih =>
    obtain ⟨hp, hs⟩ := ih (insertByDist x acc) (insertByDist_ascending x acc h)
    refine ⟨hp.trans ?_, hs⟩
    refine ((insertByDist_perm x acc).append_right xs).trans ?_
    simpa using (List.perm_middle : (acc ++ x :: xs).Perm (x :: (acc ++ xs))).symm

theorem sortByDist_perm (l : List (Point × ℚ)) : (sortByDist l).Perm l := by
  simpa using (sortByDist_aux l [] List.Pairwise.nil).1

theorem sortByDist_ascending (l : List (Point × ℚ)) : Ascending (sortByDist l) :=
  (sortByDist_aux l [] List.Pairwise.nil).2

/-- In an ascending list no entry is farther than the last one. -/
theorem le_worst (s : List (Point × ℚ)) (h : Ascending s) (w : ℚ) (hw : worst s = some w) :
    ∃ l, s = s.dropLast ++ [l] ∧ l.2 = w ∧ ∀ e ∈ s, e.2 ≤ w := by
  unfold worst at hw
  cases hl : s.getLast? with
  | none => simp [hl] at hw
  | some l =>
    simp only [hl, Option.map_some', Option.some.injEq] at hw
    have hs : s.dropLast ++ [l] = s := List.dropLast_append_getLast? l hl
    refine ⟨l, hs.symm, hw, ?_⟩
    intro e he
    rw [← hs] at he h
    rcases List.mem_append.mp he with he | he
    · rw [← hw]
      exact (List.pairwise_append.mp h).2.2 e he l (List.mem_singleton_self l)
    · rw [List.mem_singleton.mp he, hw]

theorem worst_eq_none (s : List (Point × ℚ)) (h : worst s = none) : s = [] := by
  unfold worst at h
  cases hl : s.getLast? with
  | none => exact List.getLast?_eq_none_iff.mp hl
  | some l => simp [hl] at h

theorem KnnInv.perm {k dims : Nat} {target : Point} {s : List (Point × ℚ)}
    {seen seen1 : List Point} (h : KnnInv k dims target s seen) (hp : seen.Perm seen1) :
    KnnInv k dims target s seen1 := by
  obtain ⟨out, h1, h2⟩ := h
  exact ⟨out, h1.trans hp, h2⟩

theorem offer_inv (k dims : Nat) (target v : Point) (s : List (Point × ℚ))
    (seen : List Point) (h : KnnInv k dims target s seen) :
    KnnInv k dims target (offer k (v, sqDist dims target v) s) (v :: seen) := by
  obtain ⟨out, hperm, hd, hasc, hle, hfull, hlen⟩ := h
  unfold offer
  split
  · rename_i hlt
    have hout : out = [] := by
      by_contra hne
      have := hfull hne
      omega
    subst hout
    have hmem : ∀ x, x ∈ insertByDist (v, sqDist dims target v) s
        ↔ x = (v, sqDist dims target v) ∨ x ∈ s := fun x => by
      rw [(insertByDist_perm _ s).mem_iff, List.mem_cons]
    refine ⟨[], ?_, ?_, insertByDist_ascending _ s hasc, ?_, ?_, ?_⟩
    · simp only [List.append_nil] at hperm ⊢
      exact ((insertByDist_perm _ s).map Prod.fst).trans (by simpa using hperm.cons v)
    · intro e he
      rcases (hmem e).mp he with rfl | he
      · rfl
      · exact hd e he
    · intro e _ q hq
      cases hq
    · intro hne
      exact absurd rfl hne
    · rw [(insertByDist_perm _ s).length_eq, List.length_cons]
      omega
  · rename_i hge
    have hk : s.length = k := by omega
    cases hw : worst s with
    | none =>
      have hs : s = [] := worst_eq_none s hw
      subst hs
      refine ⟨v :: out, ?_, hd, hasc, ?_, fun _ => hk, hlen⟩
      · simpa using hperm.cons v
      · intro e he
        cases he
    | some w =>
      obtain ⟨l, hsl, hlw, hall⟩ := le_worst s hasc w hw
      have hl_mem : l ∈ s := by
        rw [hsl]; exact List.mem_append_right _ (List.mem_singleton_self l)
      have hdrop_mem : ∀ x, x ∈ s.dropLast → x ∈ s := fun x hx => by
        rw [hsl]; exact List.mem_append_left _ hx
      simp only []
      split
      · rename_i hlt
        have hmem : ∀ x, x ∈ insertByDist (v, sqDist dims target v) s.dropLast
            ↔ x = (v, sqDist dims target v) ∨ x ∈ s.dropLast := fun x => by
          rw [(insertByDist_perm _ s.dropLast).mem_iff, List.mem_cons]
        have hasc1 : Ascending s.dropLast := by
          have h1 : Ascending (s.dropLast ++ [l]) := by rw [← hsl]; exact hasc
          exact (List.pairwise_append.mp h1).1
        refine ⟨l.1 :: out, ?_, ?_, insertByDist_ascending _ _ hasc1, ?_, ?_, ?_⟩
        · have h1 : (List.map Prod.fst (insertByDist (v, sqDist dims target v) s.dropLast)).Perm
              (v :: List.map Prod.fst s.dropLast) :=
            (insertByDist_perm _ s.dropLast).map Prod.fst
          have h2 : (List.map Prod.fst s.dropLast ++ l.1 :: out).Perm seen := by
            have h3 : List.map Prod.fst s ++ out
                = List.map Prod.fst s.dropLast ++ l.1 :: out := by
              conv_lhs => rw [hsl]
              simp
            rw [← h3]; exact hperm
          exact (h1.append_right _).trans (by simpa using h2.cons v)
        · intro e he
          rcases (hmem e).mp he with rfl | he
          · rfl
          · exact hd e (hdrop_mem e he)
        · intro e he q hq
          have hlq : w ≤ sqDist dims target q := by
            rcases List.mem_cons.mp hq with rfl | hq
            · rw [← hlw]; exact le_of_eq (hd l hl_mem)
            · rw [← hlw]; exact hle l hl_mem q hq
          rcases (hmem e).mp he with rfl | he
          · exact le_trans (le_of_lt hlt) hlq
          · exact le_trans (hall e (hdrop_mem e he)) hlq
        · intro _
          rw [(insertByDist_perm _ s.dropLast).length_eq, List.length_cons,
            List.length_dropLast]
          have : 0 < s.length := List.length_pos_of_mem hl_mem
          omega
        · rw [(insertByDist_perm _ s.dropLast).length_eq, List.length_cons,
            List.length_dropLast]
          have : 0 < s.length := List.length_pos_of_mem hl_mem
          omega
      · rename_i hnlt
        refine ⟨v :: out, ?_, hd, hasc, ?_, fun _ => hk, hlen⟩
        · exact List.perm_middle.trans (hperm.cons v)
        · intro e he q hq
          rcases List.mem_cons.mp hq with rfl | hq
          · exact le_trans (hall e he) (not_lt.mp hnlt)
          · exact hle e he q hq

theorem prune_inv (k dims : Nat) (target : Point) (s : List (Point × ℚ))
    (seen skipped : List Point) (plane : ℚ) (h : KnnInv k dims target s seen)
    (hfar : farNeeded k plane s = false)
    (hsk : ∀ q ∈ skipped, plane ≤ sqDist dims target q) :
    KnnInv k dims target s (skipped ++ seen) := by
  obtain ⟨out, hperm, hd, hasc, hle, hfull, hlen⟩ := h
  simp only [farNeeded, Bool.or_eq_false_iff, decide_eq_false_iff_not] at hfar
  obtain ⟨hge, hw⟩ := hfar
  refine ⟨skipped ++ out, ?_, hd, hasc, ?_, fun _ => by omega, hlen⟩
  · have h1 : (List.map Prod.fst s ++ (skipped ++ out)).Perm
        (skipped ++ (List.map Prod.fst s ++ out)) := by
      rw [← List.append_assoc, ← List.append_assoc]
      exact List.Perm.append_right _ List.perm_append_comm
    exact h1.trans (List.Perm.append_left _ hperm)
  · intro e he q hq
    rcases List.mem_append.mp hq with hq | hq
    · cases hws : worst s with
      | none =>
        rw [worst_eq_none s hws] at he
        cases he
      | some w =>
        rw [hws] at hw
        simp only [decide_eq_false_iff_not, not_lt] at hw
        obtain ⟨_, _, _, hall⟩ := le_worst s hasc w hws
        exact le_trans (hall e he) (le_trans hw (hsk q hq))
    · exact hle e he q hq

theorem axis_le_sqDist (dims axis : Nat) (a b : Point) (h : axis < dims) :
    (a.coord axis - b.coord axis) * (a.coord axis - b.coord axis) ≤ sqDist dims a b := by
  unfold sqDist
  apply List.single_le_sum
  · intro x hx
    obtain ⟨i, _, rfl⟩ := List.mem_map.mp hx
    exact mul_self_nonneg _
  · exact List.mem_map.mpr ⟨axis, List.mem_range.mpr h, rfl⟩

theorem sqDist_nonneg (dims : Nat) (a b : Point) : 0 ≤ sqDist dims a b := by
  unfold sqDist
  apply List.sum_nonneg
  intro x hx
  obtain ⟨i, _, rfl⟩ := List.mem_map.mp hx
  exact mul_self_nonneg _

/-- Every point on the far side of a splitting hyperplane is at least as far from the
target as the hyperplane: points of the right subtree when the target is on the left. -/
theorem plane_le_right (dims axis : Nat) (target v q : Point) (h : axis < dims)
    (ht : target.coord axis - v.coord axis < 0) (hq : v.coord axis ≤ q.coord axis) :
    (target.coord axis - v.coord axis) * (target.coord axis - v.coord axis)
      ≤ sqDist dims target q := by
  refine le_trans ?_ (axis_le_sqDist dims axis target q h)
  nlinarith

/-- The same bound for points of the left subtree when the target is on the right. -/
theorem plane_le_left (dims axis : Nat) (target v q : Point) (h : axis < dims)
    (ht : ¬ target.coord axis - v.coord axis < 0) (hq : q.coord axis < v.coord axis) :
    (target.coord axis - v.coord axis) * (target.coord axis - v.coord axis)
      ≤ sqDist dims target q := by
  refine le_trans ?_ (axis_le_sqDist dims axis target q h)
  nlinarith

theorem searchN_inv (k dims : Nat) (target : Point) (hdims : 0 < dims) (t : Subtree)
    (axis : Nat) (s : List (Point × ℚ)) (seen : List Point) (haxis : axis < dims)
    (hpart : t.Partitioned dims axis) (h : KnnInv k dims target s seen) :
    KnnInv k dims target (searchN target k dims t axis s) (t.points ++ seen) := by
  induction t generalizing axis s seen with
  | absent => simpa [searchN, Subtree.points] using h
  | node v l r ihl ihr =>
    obtain ⟨hl, hr, pl, pr⟩ := hpart
    have hnext : (axis + 1) % dims < dims := Nat.mod_lt _ hdims
    have h1 := offer_inv k dims target v s seen h
    simp only [searchN]
    split
    · rename_i hneg
      have h2 := ihl _ _ _ hnext pl h1
      have hfin : (r.points ++ (l.points ++ v :: seen)).Perm
          ((Subtree.node v l r).points ++ seen) := by
        simp only [Subtree.points, List.cons_append, List.append_assoc]
        refine List.perm_append_comm.trans ?_
        simp only [List.append_assoc, List.cons_append]
        refine List.perm_middle.trans (List.Perm.cons v ?_)
        refine List.Perm.append_left _ List.perm_append_comm
      split
      · exact (ihr _ _ _ hnext pr h2).perm hfin
      · rename_i hfar
        refine (prune_inv k dims target _ _ r.points _ h2 (by simpa using hfar) ?_).perm hfin
        intro q hq
        exact plane_le_right dims axis target v q haxis hneg (hr q hq)
    · rename_i hpos
      have h2 := ihr _ _ _ hnext pr h1
      have hfin : (l.points ++ (r.points ++ v :: seen)).Perm
          ((Subtree.node v l r).points ++ seen) := by
        simp only [Subtree.points, List.cons_append, List.append_assoc]
        refine List.Perm.trans ?_ List.perm_middle
        refine List.Perm.append_left _ ?_
        exact List.perm_middle
      split
      · exact (ihl _ _ _ hnext pl h2).perm hfin
      · rename_i hfar
        refine (prune_inv k dims target _ _ l.points _ h2 (by simpa using hfar) ?_).perm hfin
        intro q hq
        exact plane_le_left dims axis target v q haxis hpos (hl q hq)

theorem knnInv_nil (k dims : Nat) (target : Point) : KnnInv k dims target [] [] :=
  ⟨[], by simp, by simp, List.Pairwise.nil, by simp, by simp, by simp⟩

theorem knnInv_sort (k dims : Nat) (target : Point) (s : List (Point × ℚ))
    (seen : List Point) (h : KnnInv k dims target s seen) :
    KnnInv k dims target (sortByDist s) seen := by
  obtain ⟨out, hperm, hd, _, hle, hfull, hlen⟩ := h
  have hp := sortByDist_perm s
  refine ⟨out, ((hp.map Prod.fst).append_right out).trans hperm, ?_, sortByDist_ascending s,
    ?_, ?_, ?_⟩
  · intro e he
    exact hd e (hp.mem_iff.mp he)
  · intro e he
    exact hle e (hp.mem_iff.mp he)
  · rw [hp.length_eq]; exact hfull
  · rw [hp.length_eq]; exact hlen

/-- What the invariant says once every point of the index has been dealt with. -/
theorem knnInv_final (k dims : Nat) (target : Point) (s : List (Point × ℚ))
    (seen : List Point) (h : KnnInv k dims target s seen) :
    (s.map Prod.fst).Subperm seen
      ∧ (∀ e ∈ s, e.2 = sqDist dims target e.1)
      ∧ s.map (fun e => sqDist dims target e.1)
          = ((seen.map (sqDist dims target)).insertionSort (· ≤ ·)).take (min k seen.length)
      ∧ s.length = min k seen.length
      ∧ Ascending s
      ∧ (∀ p ∈ seen, ∀ e ∈ s, sqDist dims target p < e.2 → p ∈ s.map Prod.fst) := by
  obtain ⟨out, hperm, hd, hasc, hle, hfull, hlen⟩ := h
  have hlen2 : s.length = min k seen.length := by
    have h1 : seen.length = s.length + out.length := by
      rw [← hperm.length_eq]; simp
    by_cases ho : out = []
    · subst ho
      simp only [List.length_nil, Nat.add_zero] at h1
      omega
    · have := hfull ho
      omega
  have hmap : s.map (fun e => sqDist dims target e.1) = s.map Prod.snd := by
    apply List.map_congr_left
    intro e he
    exact (hd e he).symm
  refine ⟨(List.sublist_append_left _ _).subperm.trans hperm.subperm, hd, ?_,
    hlen2, hasc, ?_⟩
  · have hsorted : List.Sorted (· ≤ ·)
        (s.map Prod.snd ++ (out.map (sqDist dims target)).insertionSort (· ≤ ·)) := by
      refine List.pairwise_append.mpr ⟨?_, List.sorted_insertionSort _ _, ?_⟩
      · exact (List.pairwise_map).mpr hasc
      · intro a ha b hb
        obtain ⟨e, he, rfl⟩ := List.mem_map.mp ha
        obtain ⟨q, hq, rfl⟩ := List.mem_map.mp ((List.perm_insertionSort _ _).mem_iff.mp hb)
        exact hle e he q hq
    have hp : (s.map Prod.snd ++ (out.map (sqDist dims target)).insertionSort (· ≤ ·)).Perm
        ((seen.map (sqDist dims target)).insertionSort (· ≤ ·)) := by
      refine List.Perm.trans ?_ (List.perm_insertionSort _ _).symm
      refine List.Perm.trans ?_ (hperm.map (sqDist dims target))
      rw [List.map_append, List.map_map, ← hmap]
      exact List.Perm.append_left _ (List.perm_insertionSort _ _)
    have heq := List.eq_of_perm_of_sorted hp hsorted (List.sorted_insertionSort _ _)
    rw [← heq, hmap, ← hlen2]
    rw [show s.length = (s.map Prod.snd).length by simp, List.take_left]
  · intro p hp e he hlt
    rcases List.mem_append.mp (hperm.mem_iff.mpr hp) with h1 | h1
    · exact h1
    · exact absurd (hle e he p h1) (not_le.mpr hlt)

/-- The k-nearest query on an index that satisfies the partition invariant: it
succeeds, the cursor of the result is `0`, and the entries satisfy the traversal
invariant for all the points of the index. -/
theorem nearestN_inv (idx : SpatialIndex) (target : Point) (k : Nat) (hd : idx.dims = 3)
    (hpart : idx.root.Partitioned 3 0) (htarget : target.coordinates.length = 3) :
    ∃ rs, idx.nearestN target k = .ok rs ∧ rs.cursor = 0
      ∧ KnnInv k 3 target rs.entries idx.root.points := by
  by_cases hk : k = 0
  · subst hk
    refine ⟨⟨[], 0⟩, by simp [SpatialIndex.nearestN, htarget, hd], rfl, ?_⟩
    exact ⟨idx.root.points, by simp, by simp, List.Pairwise.nil, by simp, by simp, by simp⟩
  · refine ⟨⟨sortByDist (searchN target k 3 idx.root 0 []), 0⟩,
      by simp [SpatialIndex.nearestN, htarget, hd, hk], rfl, ?_⟩
    have h1 := searchN_inv k 3 target (by decide) idx.root 0 [] [] (by decide) hpart
      (knnInv_nil k 3 target)
    rw [List.append_nil] at h1
    exact knnInv_sort k 3 target _ _ h1

/-- C1: for every index built by inserting a finite sequence `pts` of 3-coordinate
points, every 3-coordinate target and every `k`, `nearestN` returns a result set whose
entries are points of the index (counted with multiplicity), each with its squared
distance to the target, and the list of these distances is the first
`min k size` elements of the ascending-sorted list of the squared distances of all
indexed points; the result has `min k size` entries, is ascending, and every indexed
point that is nearer than some returned entry is itself returned. -/
theorem nearestN_correct (pts : List Point) (target : Point) (k : Nat)
    (hpts : ∀ p ∈ pts, p.coordinates.length = 3) (htarget : target.coordinates.length = 3) :
    ∃ idx rs, SpatialIndex.build 3 pts = .ok idx
      ∧ idx.size = pts.length
      ∧ idx.root.points.Perm pts
      ∧ idx.nearestN target k = .ok rs
      ∧ rs.cursor = 0
      ∧ (rs.entries.map Prod.fst).Subperm idx.root.points
      ∧ (∀ e ∈ rs.entries, e.1 ∈ idx.root.points ∧ e.2 = sqDist 3 target e.1)
      ∧ rs.entries.map (fun e => sqDist 3 target e.1)
          = ((idx.root.points.map (sqDist 3 target)).insertionSort (· ≤ ·)).take
              (min k idx.size)
      ∧ rs.entries.length = min k idx.size
      ∧ Ascending rs.entries
      ∧ (∀ p ∈ idx.root.points, ∀ e ∈ rs.entries,
          sqDist 3 target p < e.2 → p ∈ rs.entries.map Prod.fst) := by
  obtain ⟨idx, hb, hd, hs, hperm, hpart⟩ := build_ok pts hpts
  obtain ⟨rs, hq, hcur, hinv⟩ := nearestN_inv idx target k hd hpart htarget
  obtain ⟨f1, f2, f3, f4, f5, f6⟩ := knnInv_final k 3 target _ _ hinv
  have hlen : idx.root.points.length = idx.size := by rw [hs, hperm.length_eq]
  refine ⟨idx, rs, hb, hs, hperm, hq, hcur, f1, ?_, ?_, ?_, f5, f6⟩
  · intro e he
    exact ⟨f1.subset (List.mem_map_of_mem Prod.fst he), f2 e he⟩
  · rw [← hlen]; exact f3
  · rw [← hlen]; exact f4

/-- Witness for `nearestN_correct`: the five points of the scenario of section 8 of the
specification, the target `(0,0,0)` and `k = 2`. -/
theorem nearestN_correct_witness :
    (∀ p ∈ [Point.mk [0, 0, 0] none, Point.mk [10, 0, 0] none, Point.mk [0, 10, 0] none,
        Point.mk [0, 0, 10] none, Point.mk [5, 5, 5] none], p.coordinates.length = 3)
      ∧ (Point.mk [0, 0, 0] none).coordinates.length = 3
      ∧ ∃ idx rs, SpatialIndex.build 3 [Point.mk [0, 0, 0] none, Point.mk [10, 0, 0] none,
            Point.mk [0, 10, 0] none, Point.mk [0, 0, 10] none, Point.mk [5, 5, 5] none]
            = .ok idx
          ∧ idx.nearestN (Point.mk [0, 0, 0] none) 2 = .ok rs
          ∧ rs.entries.length = min 2 idx.size :=
  ⟨by decide, by decide,
    by
      obtain ⟨idx, rs, h1, _, _, h4, _, _, _, _, h9, _⟩ :=
        nearestN_correct [Point.mk [0, 0, 0] none, Point.mk [10, 0, 0] none,
          Point.mk [0, 10, 0] none, Point.mk [0, 0, 10] none, Point.mk [5, 5, 5] none]
          (Point.mk [0, 0, 0] none) 2 (by decide) (by decide)
      exact ⟨idx, rs, h1, h4, h9⟩⟩

theorem searchRange_perm (r2 : ℚ) (dims : Nat) (target : Point) (hdims : 0 < dims)
    (t : Subtree) (axis : Nat) (acc : List (Point × ℚ)) (haxis : axis < dims)
    (hpart : t.Partitioned dims axis) :
    (searchRange target r2 dims t axis acc).Perm (acc ++ inRange target r2 dims t.points) := by
  induction t generalizing axis acc with
  | absent => simp [searchRange, Subtree.points, inRange]
  | node v l r ihl ihr =>
    obtain ⟨hl, hr, pl, pr⟩ := hpart
    have hnext : (axis + 1) % dims < dims := Nat.mod_lt _ hdims
    have hsplit : inRange target r2 dims (Subtree.node v l r).points
        = inRange target r2 dims [v] ++ (inRange target r2 dims l.points
            ++ inRange target r2 dims r.points) := by
      simp only [inRange, Subtree.points, ← List.map_append, ← List.filter_append]
      rfl
    have hacc1 : (if sqDist dims target v ≤ r2 then acc ++ [(v, sqDist dims target v)] else acc)
        = acc ++ inRange target r2 dims [v] := by
      by_cases hv : sqDist dims target v ≤ r2 <;> simp [inRange, hv]
    have hnone : ∀ ps : List Point, (∀ q ∈ ps, r2 < sqDist dims target q) →
        inRange target r2 dims ps = [] := by
      intro ps hps
      simp only [inRange, List.map_eq_nil_iff, List.filter_eq_nil_iff, decide_eq_true_eq,
        not_le]
      exact hps
    simp only [searchRange, hacc1]
    rw [hsplit]
    split
    · rename_i hneg
      have h2 := ihl ((axis + 1) % dims) (acc ++ inRange target r2 dims [v]) hnext pl
      split
      · refine (ihr _ _ hnext pr).trans ?_
        refine (h2.append_right _).trans ?_
        simp [List.append_assoc]
      · rename_i hfar
        rw [hnone r.points ?_, List.append_nil]
        · simpa [List.append_assoc] using h2
        · intro q hq
          exact lt_of_lt_of_le (not_le.mp hfar)
            (plane_le_right dims axis target v q haxis hneg (hr q hq))
    · rename_i hpos
      have h2 := ihr ((axis + 1) % dims) (acc ++ inRange target r2 dims [v]) hnext pr
      split
      · refine (ihl _ _ hnext pl).trans ?_
        refine (h2.append_right _).trans ?_
        simp only [List.append_assoc]
        exact List.Perm.append_left _ (List.Perm.append_left _ List.perm_append_comm)
      · rename_i hfar
        rw [hnone l.points ?_, List.nil_append]
        · simpa [List.append_assoc] using h2
        · intro q hq
          exact lt_of_lt_of_le (not_le.mp hfar)
            (plane_le_left dims axis target v q haxis hpos (hl q hq))

theorem inRange_perm (target : Point) (r2 : ℚ) (dims : Nat) (ps qs : List Point)
    (h : ps.Perm qs) : (inRange target r2 dims ps).Perm (inRange target r2 dims qs) :=
  (h.filter _).map _

theorem sqDist_eq_zero (dims : Nat) (a b : Point) (ha : a.coordinates.length = dims)
    (hb : b.coordinates.length = dims) (h : sqDist dims a b = 0) :
    a.coordinates = b.coordinates := by
  apply List.ext_getElem (by rw [ha, hb])
  intro i h1 h2
  have hi : i < dims := by omega
  have hle := axis_le_sqDist dims i a b hi
  rw [h] at hle
  have hz : (a.coord i - b.coord i) * (a.coord i - b.coord i) = 0 :=
    le_antisymm hle (mul_self_nonneg _)
  have hz2 : a.coord i - b.coord i = 0 := mul_self_eq_zero.mp hz
  have hc1 : a.coord i = a.coordinates[i] := by
    simp [Point.coord, List.getD_eq_getElem?_getD, List.getElem?_eq_getElem h1]
  have hc2 : b.coord i = b.coordinates[i] := by
    simp [Point.coord, List.getD_eq_getElem?_getD, List.getElem?_eq_getElem h2]
  rw [← hc1, ← hc2]
  linarith

/-- C2: for every index built by inserting a finite sequence `pts` of 3-coordinate
points, every 3-coordinate target and every radius `r ≥ 0`, `nearestInRange` returns
exactly the multiset of indexed points whose squared distance to the target is
`≤ r^2`: no such point is missing, every entry is an indexed point within the radius
and carries its squared distance; with `r = 0` every returned point has the target's
coordinates; on an empty index the result is empty. -/
theorem nearestInRange_correct (pts : List Point) (target : Point) (radius : ℚ)
    (hpts : ∀ p ∈ pts, p.coordinates.length = 3) (htarget : target.coordinates.length = 3)
    (hr : 0 ≤ radius) :
    ∃ idx rs, SpatialIndex.build 3 pts = .ok idx
      ∧ idx.root.points.Perm pts
      ∧ idx.nearestInRange target radius = .ok rs
      ∧ rs.cursor = 0
      ∧ (rs.entries.map Prod.fst).Perm
          (idx.root.points.filter (fun p => decide (sqDist 3 target p ≤ radius ^ 2)))
      ∧ (∀ p ∈ idx.root.points, sqDist 3 target p ≤ radius ^ 2 → p ∈ rs.entries.map Prod.fst)
      ∧ (∀ e ∈ rs.entries, e.1 ∈ idx.root.points ∧ e.2 = sqDist 3 target e.1
          ∧ e.2 ≤ radius ^ 2)
      ∧ Ascending rs.entries
      ∧ (radius = 0 → ∀ e ∈ rs.entries, e.1.coordinates = target.coordinates)
      ∧ (pts = [] → rs.entries = []) := by
  obtain ⟨idx, hb, hd, hs, hperm, hpart⟩ := build_ok pts hpts
  simp only [sq]
  have hsearch : (sortByDist (searchRange target (radius * radius) 3 idx.root 0 [])).Perm
      (inRange target (radius * radius) 3 idx.root.points) := by
    refine (sortByDist_perm _).trans ?_
    have h1 := searchRange_perm (radius * radius) 3 target (by decide) idx.root 0 []
      (by decide) hpart
    rw [List.nil_append] at h1
    exact h1
  have hfst : (List.map Prod.fst (inRange target (radius * radius) 3 idx.root.points))
      = idx.root.points.filter (fun p => decide (sqDist 3 target p ≤ radius * radius)) := by
    simp [inRange, List.map_map, Function.comp_def]
  have hent : ∀ e ∈ sortByDist (searchRange target (radius * radius) 3 idx.root 0 []),
      e.1 ∈ idx.root.points ∧ e.2 = sqDist 3 target e.1 ∧ e.2 ≤ radius * radius := by
    intro e he
    have h1 := hsearch.mem_iff.mp he
    simp only [inRange, List.mem_map, List.mem_filter, decide_eq_true_eq] at h1
    obtain ⟨p, ⟨hp, hle⟩, rfl⟩ := h1
    exact ⟨hp, rfl, hle⟩
  refine ⟨idx, ⟨sortByDist (searchRange target (radius * radius) 3 idx.root 0 []), 0⟩,
    hb, hperm, ?_, rfl, ?_, ?_, hent, sortByDist_ascending _, ?_, ?_⟩
  · simp [SpatialIndex.nearestInRange, htarget, hd, not_lt.mpr hr]
  · rw [← hfst]; exact hsearch.map Prod.fst
  · intro p hp hle
    have h1 : p ∈ List.map Prod.fst (inRange target (radius * radius) 3 idx.root.points) := by
      rw [hfst]
      exact List.mem_filter.mpr ⟨hp, by simpa using hle⟩
    exact (hsearch.map Prod.fst).mem_iff.mpr h1
  · intro h0 e he
    obtain ⟨h1, h2, h3⟩ := hent e he
    have hz : sqDist 3 target e.1 = 0 := by
      rw [h0] at h3
      rw [h2] at h3
      exact le_antisymm (by simpa using h3) (sqDist_nonneg 3 target e.1)
    exact (sqDist_eq_zero 3 target e.1 htarget (hpts e.1 (hperm.mem_iff.mp h1)) hz).symm
  · intro hnil
    subst hnil
    have h1 : idx.root.points = [] := List.Perm.eq_nil hperm
    have h2 := hsearch
    rw [h1] at h2
    exact List.Perm.eq_nil (by simpa [inRange] using h2)

/-- Witness for `nearestInRange_correct`: the five points of the scenario of section 8
of the specification, the target `(0,0,0)` and the radius `9`. -/
theorem nearestInRange_correct_witness :
    (∀ p ∈ [Point.mk [0, 0, 0] none, Point.mk [10, 0, 0] none, Point.mk [0, 10, 0] none,
        Point.mk [0, 0, 10] none, Point.mk [5, 5, 5] none], p.coordinates.length = 3)
      ∧ (Point.mk [0, 0, 0] none).coordinates.length = 3
      ∧ (0 : ℚ) ≤ 9
      ∧ ∃ idx rs, SpatialIndex.build 3 [Point.mk [0, 0, 0] none, Point.mk [10, 0, 0] none,
            Point.mk [0, 10, 0] none, Point.mk [0, 0, 10] none, Point.mk [5, 5, 5] none]
            = .ok idx
          ∧ idx.nearestInRange (Point.mk [0, 0, 0] none) 9 = .ok rs
          ∧ (rs.entries.map Prod.fst).Perm
              (idx.root.points.filter
                (fun p => decide (sqDist 3 (Point.mk [0, 0, 0] none) p ≤ 9 ^ 2))) :=
  ⟨by decide, by decide, by norm_num,
    by
      obtain ⟨idx, rs, h1, _, h3, _, h5, _⟩ :=
        nearestInRange_correct [Point.mk [0, 0, 0] none, Point.mk [10, 0, 0] none,
          Point.mk [0, 10, 0] none, Point.mk [0, 0, 10] none, Point.mk [5, 5, 5] none]
          (Point.mk [0, 0, 0] none) 9 (by decide) (by decide) (by norm_num)
      exact ⟨idx, rs, h1, h3, h5⟩⟩

/-! ## Theorems about tokens and numerals -/

theorem splitOnP_append_sep (p : Char → Bool) (a rest : List Char) (sep : Char)
    (hsep : p sep = true) :
    (a ++ sep :: rest).splitOnP p = a.splitOnP p ++ rest.splitOnP p := by
  induction a with
  | nil => simp [List.splitOnP_cons, hsep, List.splitOnP_nil]
  | cons x xs ih =>
    rw [List.cons_append, List.splitOnP_cons, List.splitOnP_cons, ih]
    by_cases hx : p x = true
    · simp [hx]
    · simp only [hx, Bool.false_eq_true, if_false]
      cases hs : List.splitOnP p xs with
      | nil => exact absurd hs (List.splitOnP_ne_nil p xs)
      | cons y ys => simp [List.modifyHead]

theorem tokensOf_append_sep (a rest : List Char) (sep : Char) (hsep : isSpace sep = true) :
    tokensOf (a ++ sep :: rest) = tokensOf a ++ tokensOf rest := by
  simp [tokensOf, splitOnP_append_sep isSpace a rest sep hsep]

theorem tokensOf_word (w : List Char) (hne : w ≠ []) (hw : ∀ c ∈ w, isSpace c = false) :
    tokensOf w = [String.mk w] := by
  have h : w.splitOnP isSpace = [w] :=
    List.splitOnP_eq_single isSpace w (fun c hc => by simp [hw c hc])
  simp [tokensOf, h, hne]

theorem tokensOf_append_word (w rest : List Char) (sep : Char) (hsep : isSpace sep = true)
    (hne : w ≠ []) (hw : ∀ c ∈ w, isSpace c = false) :
    tokensOf (w ++ sep :: rest) = String.mk w :: tokensOf rest := by
  rw [tokensOf_append_sep w rest sep hsep, tokensOf_word w hne hw]
  rfl

theorem tokens_fileContent_cons (l : String) (ls : List String) :
    tokens (fileContent (l :: ls)) = tokens l ++ tokens (fileContent ls) := by
  simp only [tokens, fileContent, String.data_append]
  rw [List.append_assoc, List.singleton_append]
  exact tokensOf_append_sep _ _ _ (by decide)

theorem digitChar_facts : ∀ m, m < 10 →
    (Nat.digitChar m).isDigit = true ∧ (Nat.digitChar m).toNat - 48 = m
      ∧ isSpace (Nat.digitChar m) = false := by
  decide

theorem digitsValue_append (ds : List Char) (c : Char) :
    digitsValue (ds ++ [c]) = 10 * digitsValue ds + (c.toNat - 48) := by
  simp [digitsValue, List.foldl_append]

theorem toDigitsCore_facts (fuel : Nat) : ∀ n, n < fuel →
    ∃ cs : List Char, (∀ ds, Nat.toDigitsCore 10 fuel n ds = cs ++ ds) ∧ cs ≠ []
      ∧ (∀ c ∈ cs, c.isDigit = true ∧ isSpace c = false) ∧ digitsValue cs = n := by
  induction fuel with
  | zero => intro n hn; omega
  | succ fuel ih =>
    intro n hn
    have hd := digitChar_facts (n % 10) (Nat.mod_lt _ (by decide))
    by_cases h0 : n / 10 = 0
    · refine ⟨[Nat.digitChar (n % 10)], ?_, by simp, ?_, ?_⟩
      · intro ds; simp [Nat.toDigitsCore, h0]
      · intro c hc
        rw [List.mem_singleton.mp hc]
        exact ⟨hd.1, hd.2.2⟩
      · have hn10 : n % 10 = n := by omega
        have h2 := hd.2.1
        rw [hn10] at h2 ⊢
        simp [digitsValue, h2]
    · obtain ⟨cs, h1, _, h3, h4⟩ := ih (n / 10) (by omega)
      refine ⟨cs ++ [Nat.digitChar (n % 10)], ?_, by simp, ?_, ?_⟩
      · intro ds
        simp [Nat.toDigitsCore, h0, h1]
      · intro c hc
        rcases List.mem_append.mp hc with hc | hc
        · exact h3 c hc
        · rw [List.mem_singleton.mp hc]
          exact ⟨hd.1, hd.2.2⟩
      · rw [digitsValue_append, h4, hd.2.1]
        omega

/-- The decimal numeral `%u` prints is a non-empty run of digits that denotes the number
printed. -/
theorem repr_facts (n : Nat) :
    (Nat.repr n).data ≠ [] ∧ (∀ c ∈ (Nat.repr n).data, c.isDigit = true ∧ isSpace c = false)
      ∧ digitsValue (Nat.repr n).data = n := by
  obtain ⟨cs, h1, h2, h3, h4⟩ := toDigitsCore_facts (n + 1) n (Nat.lt_succ_self n)
  have h : (Nat.repr n).data = cs := by
    have := h1 []
    simpa [Nat.repr, Nat.toDigits, List.asString] using this
  rw [h]
  exact ⟨h2, h3, h4⟩

theorem scan_u_digits (t : String) (hne : t.data ≠ [])
    (hd : ∀ c ∈ t.data, c.isDigit = true) (hv : digitsValue t.data < 2 ^ 32) :
    scan_u t = some (some (digitsValue t.data), "") := by
  obtain ⟨c, cs, hcs⟩ := List.exists_cons_of_ne_nil hne
  have hc : c.isDigit = true := hd c (by rw [hcs]; exact List.mem_cons_self _ _)
  have hminus : c ≠ '-' := by rintro rfl; revert hc; decide
  have hplus : c ≠ '+' := by rintro rfl; revert hc; decide
  have htake : List.takeWhile Char.isDigit t.data = t.data :=
    List.takeWhile_eq_self_iff.mpr (fun x hx => hd x hx)
  have hdrop : List.dropWhile Char.isDigit t.data = [] :=
    List.dropWhile_eq_nil_iff.mpr (fun x hx => hd x hx)
  have hh : t.data.head? = some c := by rw [hcs]; rfl
  have hv2 : ¬ 2 ^ 32 ≤ digitsValue t.data := by omega
  simp only [scan_u, hh, Option.some.injEq, hminus, hplus, decide_False, Bool.or_self,
    Bool.false_eq_true, if_false, htake, hdrop, hne, hv2, Bool.false_and]

theorem scan_u_repr (n : Nat) (hn : n < 2 ^ 32) :
    scan_u (Nat.repr n) = some (some n, "") := by
  obtain ⟨h1, h2, h3⟩ := repr_facts n
  rw [scan_u_digits (Nat.repr n) h1 (fun c hc => (h2 c hc).1) (by rw [h3]; exact hn), h3]

/-! ## Theorems about `read_cloud_points_from_vtk` -/

theorem skipToPoints_pre (pre ts : List String)
    (hpre : ∀ t ∈ pre, cString t ≠ "POINTS" ∧ t.utf8ByteSize < 200) :
    skipToPoints (pre ++ "POINTS" :: ts) = some ts := by
  induction pre with
  | nil =>
    have h : ¬ 200 ≤ ("POINTS" : String).utf8ByteSize := by decide
    have hc : cString "POINTS" = "POINTS" := by decide
    simp [skipToPoints, h, hc]
  | cons t pre ih =>
    have ht := hpre t (List.mem_cons_self _ _)
    have h : ¬ 200 ≤ t.utf8ByteSize := by omega
    simp only [List.cons_append, skipToPoints, h, if_false, ht.1]
    exact ih (fun u hu => hpre u (List.mem_cons_of_mem _ hu))

theorem unread_empty (ts : List String) : unread "" ts = ts := by
  simp [unread]

theorem scanCount_ok (np0 n : Nat) (cnt tag : String) (ts : List String)
    (hcnt : scan_u cnt = some (some n, "")) (htag : tag.utf8ByteSize < 200) :
    scanCount np0 (cnt :: tag :: ts) = some (n, ts) := by
  have h : ¬ 200 ≤ tag.utf8ByteSize := by omega
  simp [scanCount, hcnt, unread_empty, h]

theorem scanTriple_ok (lf : String → Option ℚ × String) (pos : ℚ × ℚ × ℚ)
    (a b c : String) (x y z : ℚ) (ts : List String)
    (ha : lf a = (some x, "")) (hb : lf b = (some y, "")) (hc : lf c = (some z, "")) :
    scanTriple lf pos (a :: b :: c :: ts) = ((x, y, z), ts) := by
  simp [scanTriple, ha, hb, hc, unread_empty]

theorem readLoop_ok (env : Env) (n : Nat) : ∀ (i : Nat) (nums : List String) (xs : List ℚ)
    (rest : List String) (out : List (List ℚ)),
    nums.map env.libc.scan_lf = xs.map (fun x => (some x, "")) → xs.length = 3 * n →
    readLoop env n i (nums ++ rest) out = out ++ triples xs := by
  induction n with
  | zero =>
    intro i nums xs rest out _ hlen
    have hxs : xs = [] := List.length_eq_zero.mp (by omega)
    subst hxs
    simp [readLoop, triples]
  | succ n ih =>
    intro i nums xs rest out hmap hlen
    match xs, hlen with
    | x :: y :: z :: xs1, hlen =>
      match nums, hmap with
      | [], hmap => simp at hmap
      | [_], hmap => simp at hmap
      | [_, _], hmap => simp at hmap
      | a :: b :: c :: nums1, hmap =>
        simp only [List.map_cons, List.cons.injEq] at hmap
        obtain ⟨ha, hb, hc, hmap1⟩ := hmap
        have hlen1 : xs1.length = 3 * n := by
          simp only [List.length_cons] at hlen; omega
        simp only [readLoop, List.cons_append, scanTriple_ok _ _ a b c x y z _ ha hb hc]
        rw [ih (i + 1) nums1 xs1 rest _ hmap1 hlen1]
        simp [triples]

theorem triples_length : ∀ (n : Nat) (xs : List ℚ), xs.length = 3 * n →
    (triples xs).length = n ∧ (∀ p ∈ triples xs, p.length = 3)
      ∧ ∀ i, i < n → (triples xs).get? i
          = some [xs.getD (3 * i) 0, xs.getD (3 * i + 1) 0, xs.getD (3 * i + 2) 0] := by
  intro n
  induction n with
  | zero =>
    intro xs hlen
    have hxs : xs = [] := List.length_eq_zero.mp (by omega)
    subst hxs
    simp [triples]
  | succ n ih =>
    intro xs hlen
    match xs, hlen with
    | x :: y :: z :: xs1, hlen =>
      have hlen1 : xs1.length = 3 * n := by
        simp only [List.length_cons] at hlen; omega
      obtain ⟨h1, h2, h3⟩ := ih xs1 hlen1
      refine ⟨by simp [triples, h1], ?_, ?_⟩
      · intro p hp
        simp only [triples, List.mem_cons] at hp
        rcases hp with rfl | hp
        · rfl
        · exact h2 p hp
      · intro i hi
        cases i with
        | zero => simp [triples]
        | succ j =>
          have h4 := h3 j (by omega)
          have e1 : 3 * (j + 1) = 3 * j + 3 := by ring
          simp only [triples, List.get?_cons_succ, h4, e1]
          rfl

/-- The reader on a file whose tokens have the expected shape returns the triples of
the numbers that follow the type tag. -/
theorem read_tokens_ok (env : Env) (filename content : String) (pre : List String)
    (cnt tag : String) (nums rest : List String) (n : Nat) (xs : List ℚ)
    (hfile : env.file filename = some content)
    (htok : tokens content = pre ++ "POINTS" :: cnt :: tag :: (nums ++ rest))
    (hpre : ∀ t ∈ pre, cString t ≠ "POINTS" ∧ t.utf8ByteSize < 200)
    (hcnt : scan_u cnt = some (some n, ""))
    (htag : tag.utf8ByteSize < 200)
    (hnums : nums.map env.libc.scan_lf = xs.map (fun x => (some x, "")))
    (hlen : xs.length = 3 * n) :
    read_cloud_points_from_vtk env filename = .returned (triples xs) := by
  simp only [read_cloud_points_from_vtk, hfile, htok, skipToPoints_pre pre _ hpre,
    scanCount_ok _ n cnt tag _ hcnt htag]
  rw [readLoop_ok env n 0 nums xs rest [] hnums hlen]
  rfl

/-- For a file whose tokens are `pre`, then `POINTS`, a count token that `%u` reads
whole as `n`, a type tag and at least `3 n` tokens that `%lf` reads whole as the numbers
`xs`, where no token of `pre` holds the C string `POINTS` and every token of `pre` and
the tag fit the 200 bytes of `str`, `read_cloud_points_from_vtk` returns exactly `n`
points in file order, each with three coordinates, the `i`-th being
`(xs[3i], xs[3i+1], xs[3i+2])`; the tokens of `pre` are ignored. -/
theorem read_well_formed (env : Env) (filename content : String) (pre : List String)
    (cnt tag : String) (nums rest : List String) (n : Nat) (xs : List ℚ)
    (hfile : env.file filename = some content)
    (htok : tokens content = pre ++ "POINTS" :: cnt :: tag :: (nums ++ rest))
    (hpre : ∀ t ∈ pre, cString t ≠ "POINTS" ∧ t.utf8ByteSize < 200)
    (hcnt : scan_u cnt = some (some n, ""))
    (htag : tag.utf8ByteSize < 200)
    (hnums : nums.map env.libc.scan_lf = xs.map (fun x => (some x, "")))
    (hlen : xs.length = 3 * n) :
    read_cloud_points_from_vtk env filename = .returned (triples xs)
      ∧ (triples xs).length = n
      ∧ (∀ p ∈ triples xs, p.length = 3)
      ∧ ∀ i, i < n → (triples xs).get? i
          = some [xs.getD (3 * i) 0, xs.getD (3 * i + 1) 0, xs.getD (3 * i + 2) 0] :=
  ⟨read_tokens_ok env filename content pre cnt tag nums rest n xs hfile htok hpre hcnt htag
    hnums hlen, triples_length n xs hlen⟩

theorem length_three (p : List ℚ) (h : p.length = 3) : ∃ a b c, p = [a, b, c] := by
  match p, h with
  | [a, b, c], _ => exact ⟨a, b, c, rfl⟩

theorem coordLine_three (g : ℚ → String) (p : List ℚ) (h : p.length = 3) :
    coordLine g p = some (tripleText g p) := by
  obtain ⟨a, b, c, rfl⟩ := length_three p h
  rfl

theorem coordLines_eq (g : ℚ → String) (pts : List (List ℚ))
    (h3 : ∀ p ∈ pts, p.length = 3) (n : Nat) : ∀ i, i + n ≤ pts.length →
    coordLines g pts n i = some (((pts.drop i).take n).map (tripleText g)) := by
  induction n with
  | zero => intro i _; simp [coordLines]
  | succ n ih =>
    intro i hi
    have hlt : i < pts.length := by omega
    have hget : pts.get? i = some pts[i] := by
      rw [List.get?_eq_getElem?, List.getElem?_eq_getElem hlt]
    have hdrop : pts.drop i = pts[i] :: pts.drop (i + 1) := List.drop_eq_getElem_cons hlt
    simp only [coordLines, hget, coordLine_three g pts[i] (h3 _ (List.getElem_mem hlt)),
      ih (i + 1) (by omega), hdrop, List.take_succ_cons, List.map_cons]

/-- The lines `write_points_in_vtk` writes for points with three coordinates each. -/
theorem write_points_eq (env : Env) (filename : String) (pts : List (List ℚ))
    (h3 : ∀ p ∈ pts, p.length = 3) (hsize : 2 * pts.length < 2 ^ 32)
    (hw : env.writable filename = true) :
    write_points_in_vtk env filename pts
      = .written (["# vtk DataFile Version 4.1", "vtk output", "ASCII", "DATASET POLYDATA",
            "POINTS " ++ Nat.repr pts.length ++ " float"]
          ++ pts.map (tripleText env.libc.fmt_g)
          ++ ["VERTICES " ++ Nat.repr pts.length ++ " " ++ Nat.repr (2 * pts.length)]
          ++ (List.range pts.length).map (fun i => "1 " ++ Nat.repr i)) := by
  have hnp : pts.length % 2 ^ 32 = pts.length := Nat.mod_eq_of_lt (by omega)
  have h2 : pts.length * 2 % 2 ^ 32 = 2 * pts.length := by
    rw [Nat.mul_comm]; exact Nat.mod_eq_of_lt hsize
  have hc := coordLines_eq env.libc.fmt_g pts h3 pts.length 0 (by omega)
  simp only [List.drop_zero, List.take_length] at hc
  simp only [write_points_in_vtk, hw, if_true, hnp, hc, h2, vertexLines]

/-- C5: for every list of `n` three-coordinate points with `2 n < 2 ^ 32` (and an
output file that can be opened) `write_points_in_vtk` writes exactly `2 n + 6` lines:
the four fixed header lines, `POINTS n float`, the `n` coordinate triples in input
order, `VERTICES n 2n`, and the lines `1 i` for `i = 0 .. n - 1` in increasing order. -/
theorem write_points_lines (env : Env) (filename : String) (pts : List (List ℚ))
    (h3 : ∀ p ∈ pts, p.length = 3) (hsize : 2 * pts.length < 2 ^ 32)
    (hw : env.writable filename = true) :
    ∃ lines, write_points_in_vtk env filename pts = .written lines
      ∧ lines.length = 2 * pts.length + 6
      ∧ lines = ["# vtk DataFile Version 4.1", "vtk output", "ASCII", "DATASET POLYDATA",
            "POINTS " ++ Nat.repr pts.length ++ " float"]
          ++ pts.map (tripleText env.libc.fmt_g)
          ++ ["VERTICES " ++ Nat.repr pts.length ++ " " ++ Nat.repr (2 * pts.length)]
          ++ (List.range pts.length).map (fun i => "1 " ++ Nat.repr i) := by
  refine ⟨_, write_points_eq env filename pts h3 hsize hw, ?_, rfl⟩
  simp only [List.length_append, List.length_cons, List.length_nil, List.length_map,
    List.length_range]
  omega

/-- Witness for `write_points_lines`: two points, with a `%g` that prints every number
as `0`. -/
theorem write_points_lines_witness :
    (∀ p ∈ [[(1 : ℚ), 2, 3], [4, 5, 6]], p.length = 3)
      ∧ 2 * [[(1 : ℚ), 2, 3], [4, 5, 6]].length < 2 ^ 32
      ∧ ∃ lines, write_points_in_vtk
            { libc := { scan_lf := fun _ => (some 0, ""), fmt_g := fun _ => "0" },
              ndebug := false, file := fun _ => none, writable := fun _ => true,
              np_garbage := 0, pos_garbage := fun _ => (0, 0, 0) }
            "outputs/nearest_points.vtk" [[1, 2, 3], [4, 5, 6]] = .written lines
          ∧ lines.length = 2 * [[(1 : ℚ), 2, 3], [4, 5, 6]].length + 6 :=
  ⟨by decide, by decide,
    by
      obtain ⟨lines, h1, h2, _⟩ := write_points_lines
        { libc := { scan_lf := fun _ => (some 0, ""), fmt_g := fun _ => "0" },
          ndebug := false, file := fun _ => none, writable := fun _ => true,
          np_garbage := 0, pos_garbage := fun _ => (0, 0, 0) }
        "outputs/nearest_points.vtk" [[1, 2, 3], [4, 5, 6]] (by decide) (by decide) rfl
      exact ⟨lines, h1, h2⟩⟩

theorem tokens_fileContent_append (a b : List String) :
    tokens (fileContent (a ++ b)) = tokens (fileContent a) ++ tokens (fileContent b) := by
  induction a with
  | nil =>
    have h : tokens (fileContent []) = [] := by decide
    simp [h]
  | cons l ls ih =>
    rw [List.cons_append, tokens_fileContent_cons, tokens_fileContent_cons, ih,
      List.append_assoc]

theorem tokens_header :
    tokens (fileContent ["# vtk DataFile Version 4.1", "vtk output", "ASCII",
      "DATASET POLYDATA"])
      = ["#", "vtk", "DataFile", "Version", "4.1", "vtk", "output", "ASCII", "DATASET",
          "POLYDATA"] := by
  decide

theorem tokens_points_line (n : Nat) :
    tokens ("POINTS " ++ Nat.repr n ++ " float") = ["POINTS", Nat.repr n, "float"] := by
  obtain ⟨h1, h2, _⟩ := repr_facts n
  have e : ("POINTS " ++ Nat.repr n ++ " float").data
      = ['P', 'O', 'I', 'N', 'T', 'S'] ++ ' ' :: ((Nat.repr n).data
          ++ ' ' :: ['f', 'l', 'o', 'a', 't']) := by
    simp only [String.data_append]
    rfl
  rw [tokens, e, tokensOf_append_word _ _ ' ' (by decide) (by decide) (by decide),
    tokensOf_append_word _ _ ' ' (by decide) h1 (fun c hc => (h2 c hc).2),
    tokensOf_word _ (by decide) (by decide)]

theorem tokens_triple (g : ℚ → String) (a b c : ℚ)
    (hg : ∀ x, (g x).data ≠ [] ∧ ∀ ch ∈ (g x).data, isSpace ch = false) :
    tokens (tripleText g [a, b, c]) = [g a, g b, g c] := by
  have e : (tripleText g [a, b, c]).data
      = (g a).data ++ ' ' :: ((g b).data ++ ' ' :: (g c).data) := by
    simp only [tripleText, String.data_append]
    simp
  rw [tokens, e, tokensOf_append_word _ _ ' ' (by decide) (hg a).1 (hg a).2,
    tokensOf_append_word _ _ ' ' (by decide) (hg b).1 (hg b).2,
    tokensOf_word _ (hg c).1 (hg c).2]

theorem tokens_coords (g : ℚ → String) (pts : List (List ℚ))
    (h3 : ∀ p ∈ pts, p.length = 3)
    (hg : ∀ x, (g x).data ≠ [] ∧ ∀ ch ∈ (g x).data, isSpace ch = false) :
    tokens (fileContent (pts.map (tripleText g))) = (pts.flatMap id).map g := by
  induction pts with
  | nil =>
    show tokens (fileContent []) = []
    decide
  | cons p ps ih =>
    obtain ⟨a, b, c, rfl⟩ := length_three p (h3 p (List.mem_cons_self _ _))
    rw [List.map_cons, tokens_fileContent_cons, tokens_triple g a b c hg,
      ih (fun q hq => h3 q (List.mem_cons_of_mem _ hq))]
    simp

theorem triples_flatMap (pts : List (List ℚ)) (h3 : ∀ p ∈ pts, p.length = 3) :
    triples (pts.flatMap id) = pts ∧ (pts.flatMap id).length = 3 * pts.length := by
  induction pts with
  | nil => simp [triples]
  | cons p ps ih =>
    obtain ⟨a, b, c, rfl⟩ := length_three p (h3 p (List.mem_cons_self _ _))
    obtain ⟨h1, h2⟩ := ih (fun q hq => h3 q (List.mem_cons_of_mem _ hq))
    constructor
    · show triples (a :: b :: c :: ps.flatMap id) = [a, b, c] :: ps
      rw [triples, h1]
    · simp only [List.flatMap_cons, id, List.length_append, List.length_cons,
        List.length_nil, h2]
      omega

theorem map_scan_fmt (libc : Libc) (v : ℚ → ℚ)
    (hv : ∀ x, libc.scan_lf (libc.fmt_g x) = (some (v x), "")) (pts : List (List ℚ)) :
    ((pts.flatMap id).map libc.fmt_g).map libc.scan_lf
      = ((pts.map (List.map v)).flatMap id).map (fun x => (some x, "")) := by
  induction pts with
  | nil => rfl
  | cons p ps ih =>
    simp only [List.flatMap_cons, id, List.map_append, List.map_cons, ih]
    congr 1
    simp [List.map_map, Function.comp_def, hv]

/-- C9: for every list of `n` three-coordinate points with `2 n < 2 ^ 32`, and a C
library whose `%g` prints a number as one token that `%lf` reads back whole (as the
number `v x` for the text of `x`), `read_cloud_points_from_vtk` applied to the file
that `write_points_in_vtk` produced returns exactly `n` points in the same order, the
`i`-th being the parse of the `i`-th written coordinate line. -/
theorem write_read_round_trip (env : Env) (path : String) (pts : List (List ℚ))
    (v : ℚ → ℚ) (h3 : ∀ p ∈ pts, p.length = 3) (hsize : 2 * pts.length < 2 ^ 32)
    (hw : env.writable path = true)
    (hg : ∀ x, (env.libc.fmt_g x).data ≠ []
      ∧ ∀ ch ∈ (env.libc.fmt_g x).data, isSpace ch = false)
    (hv : ∀ x, env.libc.scan_lf (env.libc.fmt_g x) = (some (v x), "")) :
    ∃ lines, write_points_in_vtk env path pts = .written lines
      ∧ read_cloud_points_from_vtk (env.withFile path (fileContent lines)) path
          = .returned (pts.map (List.map v))
      ∧ (pts.map (List.map v)).length = pts.length := by
  have hwr := write_points_eq env path pts h3 hsize hw
  refine ⟨_, hwr, ?_, by simp⟩
  generalize hlines : (["# vtk DataFile Version 4.1", "vtk output", "ASCII",
      "DATASET POLYDATA", "POINTS " ++ Nat.repr pts.length ++ " float"]
    ++ pts.map (tripleText env.libc.fmt_g)
    ++ ["VERTICES " ++ Nat.repr pts.length ++ " " ++ Nat.repr (2 * pts.length)]
    ++ (List.range pts.length).map (fun i => "1 " ++ Nat.repr i)) = lines
  clear hwr
  have h3v : ∀ p ∈ pts.map (List.map v), p.length = 3 := by
    intro p hp
    obtain ⟨q, hq, rfl⟩ := List.mem_map.mp hp
    simpa using h3 q hq
  obtain ⟨ht1, ht2⟩ := triples_flatMap (pts.map (List.map v)) h3v
  have htok : tokens (fileContent lines)
      = ["#", "vtk", "DataFile", "Version", "4.1", "vtk", "output", "ASCII", "DATASET",
          "POLYDATA"] ++ "POINTS" :: Nat.repr pts.length :: "float"
          :: ((pts.flatMap id).map env.libc.fmt_g
            ++ tokens (fileContent
                (["VERTICES " ++ Nat.repr pts.length ++ " " ++ Nat.repr (2 * pts.length)]
                  ++ (List.range pts.length).map (fun i => "1 " ++ Nat.repr i)))) := by
    have e : lines = ["# vtk DataFile Version 4.1", "vtk output", "ASCII", "DATASET POLYDATA"]
        ++ (["POINTS " ++ Nat.repr pts.length ++ " float"]
          ++ (pts.map (tripleText env.libc.fmt_g)
            ++ (["VERTICES " ++ Nat.repr pts.length ++ " " ++ Nat.repr (2 * pts.length)]
              ++ (List.range pts.length).map (fun i => "1 " ++ Nat.repr i)))) := by
      rw [← hlines]; simp
    rw [e, tokens_fileContent_append, tokens_header, tokens_fileContent_append,
      tokens_fileContent_append, tokens_coords _ pts h3 hg]
    have e2 : tokens (fileContent ["POINTS " ++ Nat.repr pts.length ++ " float"])
        = ["POINTS", Nat.repr pts.length, "float"] := by
      rw [tokens_fileContent_cons, tokens_points_line]
      have h : tokens (fileContent []) = [] := by decide
      rw [h, List.append_nil]
    rw [e2]
    simp
  have hfile : (env.withFile path (fileContent lines)).file path = some (fileContent lines) := by
    simp [Env.withFile]
  have hcnt : scan_u (Nat.repr pts.length) = some (some pts.length, "") :=
    scan_u_repr pts.length (by omega)
  have hnums : ((pts.flatMap id).map env.libc.fmt_g).map
      (env.withFile path (fileContent lines)).libc.scan_lf
      = ((pts.map (List.map v)).flatMap id).map (fun x => (some x, "")) := by
    exact map_scan_fmt env.libc v hv pts
  have hlen : ((pts.map (List.map v)).flatMap id).length = 3 * pts.length := by
    rw [ht2]; simp
  have hmain := (read_tokens_ok (env.withFile path (fileContent lines)) path
    (fileContent lines)
    ["#", "vtk", "DataFile", "Version", "4.1", "vtk", "output", "ASCII", "DATASET", "POLYDATA"]
    (Nat.repr pts.length) "float" ((pts.flatMap id).map env.libc.fmt_g) _ pts.length
    ((pts.map (List.map v)).flatMap id) hfile htok (by decide) hcnt (by decide) hnums hlen)
  rw [hmain, ht1]

/-! ## Theorems about `main` -/

theorem readLoop_length (env : Env) (n : Nat) : ∀ (i : Nat) (ts : List String)
    (out : List (List ℚ)),
    (readLoop env n i ts out).length = out.length + n
      ∧ ∀ p ∈ readLoop env n i ts out, p ∈ out ∨ p.length = 3 := by
  induction n with
  | zero =>
    intro i ts out
    exact ⟨by simp [readLoop], fun p hp => Or.inl (by simpa [readLoop] using hp)⟩
  | succ n ih =>
    intro i ts out
    simp only [readLoop]
    obtain ⟨h1, h2⟩ := ih (i + 1) (scanTriple env.libc.scan_lf (env.pos_garbage i) ts).2
      (out ++ [[(scanTriple env.libc.scan_lf (env.pos_garbage i) ts).1.1,
        (scanTriple env.libc.scan_lf (env.pos_garbage i) ts).1.2.1,
        (scanTriple env.libc.scan_lf (env.pos_garbage i) ts).1.2.2]])
    refine ⟨by rw [h1]; simp; omega, ?_⟩
    intro p hp
    rcases h2 p hp with h | h
    · rcases List.mem_append.mp h with h | h
      · exact Or.inl h
      · right
        rw [List.mem_singleton.mp h]
        rfl
    · exact Or.inr h

theorem read_returned_three (env : Env) (filename : String) (pts : List (List ℚ))
    (h : read_cloud_points_from_vtk env filename = .returned pts) :
    ∀ p ∈ pts, p.length = 3 := by
  unfold read_cloud_points_from_vtk at h
  split at h
  · cases h
  · split at h
    · cases h
    · split at h
      · cases h
      · cases h
        intro p hp
        rcases (readLoop_length env _ 0 _ []).2 p hp with h1 | h1
        · cases h1
        · exact h1

theorem insertLoop_ndebug (t : SpatialIndex) (pts : List (List ℚ)) :
    insertLoop true t pts = some t := by
  induction pts with
  | nil => rfl
  | cons p ps ih => simpa [insertLoop] using ih

theorem insertLoop_debug (pts : List (List ℚ)) (h3 : ∀ p ∈ pts, p.length = 3) :
    ∀ t : SpatialIndex, t.dims = 3 →
      ∃ t1, insertLoop false t pts = some t1
        ∧ t.insertAll (pts.map (fun p => Point.mk p none)) = .ok t1 := by
  induction pts with
  | nil => intro t _; exact ⟨t, rfl, rfl⟩
  | cons p ps ih =>
    intro t hd
    obtain ⟨a, b, c, rfl⟩ := length_three p (h3 p (List.mem_cons_self _ _))
    have hins : t.insert (Point.mk [a, b, c] none)
        = .ok { t with root := t.root.insert t.dims (Point.mk [a, b, c] none) 0,
                       size := t.size + 1 } := by
      simp [SpatialIndex.insert, hd]
    obtain ⟨t1, h1, h2⟩ := ih (fun q hq => h3 q (List.mem_cons_of_mem _ hq))
      { t with root := t.root.insert t.dims (Point.mk [a, b, c] none) 0, size := t.size + 1 }
      hd
    refine ⟨t1, ?_, ?_⟩
    · simp only [insertLoop, Bool.false_eq_true, if_false, kd_insert3]
      simp only [List.get?_cons_zero, List.get?_cons_succ, hins]
      exact h1
    · simp only [List.map_cons, SpatialIndex.insertAll, hins]
      exact h2

theorem drainLoop_all (entries : List (Point × ℚ)) (fuel : Nat) : ∀ (c : Nat)
    (acc : List (List ℚ)), entries.length ≤ c + fuel →
    drainLoop fuel { entries := entries, cursor := c } acc
      = some (acc ++ (entries.drop c).map
          (fun e => [e.1.coord 0, e.1.coord 1, e.1.coord 2])) := by
  induction fuel with
  | zero =>
    intro c acc h
    have hc : entries.length ≤ c := by omega
    simp [drainLoop, ResultSet.isExhausted, hc, List.drop_eq_nil_of_le hc]
  | succ fuel ih =>
    intro c acc h
    by_cases hc : entries.length ≤ c
    · simp [drainLoop, ResultSet.isExhausted, hc, List.drop_eq_nil_of_le hc]
    · have hlt : c < entries.length := by omega
      have hget : entries.get? c = some entries[c] := by
        rw [List.get?_eq_getElem?, List.getElem?_eq_getElem hlt]
      have hdrop : entries.drop c = entries[c] :: entries.drop (c + 1) :=
        List.drop_eq_getElem_cons hlt
      simp only [drainLoop, ResultSet.isExhausted, hc, decide_False, Bool.false_eq_true,
        if_false, ResultSet.current, hget, ResultSet.advance]
      rw [ih (c + 1) _ (by omega), hdrop]
      simp only [List.map_cons, List.append_assoc, List.singleton_append]
      rfl

/-- What a run of `main` with one argument does once the points are read: the index it
queries is the one built from the points read (from no point at all under `NDEBUG`),
the query succeeds, and the run goes on to `write_points_in_vtk` with the positions of
the entries found. -/
theorem main_after_read (env : Env) (argv : List String) (pts : List (List ℚ))
    (hargc : argv.length = 2)
    (hread : read_cloud_points_from_vtk env inputPath = .returned pts) :
    ∃ idx rs, SpatialIndex.build 3
          (if env.ndebug then [] else pts.map (fun p => Point.mk p none)) = .ok idx
      ∧ idx.nearestN (Point.mk pt none) 40 = .ok rs
      ∧ (main env argv).opened = some inputPath
      ∧ (main env argv).points = some pts
      ∧ (main env argv).index = some idx
      ∧ (main env argv).results = some rs
      ∧ (env.writable outputPath = true →
          (main env argv).outcome = .exited 0
            ∧ ∃ lines, (main env argv).output = some (outputPath, lines)
                ∧ write_points_in_vtk env outputPath
                    (rs.entries.map (fun e => [e.1.coord 0, e.1.coord 1, e.1.coord 2]))
                  = .written lines)
      ∧ (env.writable outputPath = false →
          (main env argv).outcome = .crashed ∧ (main env argv).output = none) := by
  have h3 := read_returned_three env inputPath pts hread
  have hbuild : ∃ idx, SpatialIndex.build 3
        (if env.ndebug then [] else pts.map (fun p => Point.mk p none)) = .ok idx
      ∧ insertLoop env.ndebug { dims := 3, root := .absent, size := 0 } pts = some idx := by
    cases hnd : env.ndebug with
    | true =>
      exact ⟨{ dims := 3, root := .absent, size := 0 }, rfl, insertLoop_ndebug _ pts⟩
    | false =>
      obtain ⟨t1, h1, h2⟩ := insertLoop_debug pts h3 { dims := 3, root := .absent, size := 0 } rfl
      exact ⟨t1, h2, h1⟩
  obtain ⟨idx, hb, hloop⟩ := hbuild
  have hpts : ∀ p ∈ (if env.ndebug then [] else pts.map (fun p => Point.mk p none)),
      p.coordinates.length = 3 := by
    intro p hp
    split at hp
    · cases hp
    · obtain ⟨q, hq, rfl⟩ := List.mem_map.mp hp
      exact h3 q hq
  obtain ⟨idx1, hb1, hd1, _, _, hpart1⟩ := build_ok _ hpts
  rw [hb] at hb1
  cases hb1
  obtain ⟨rs, hq, hcur, hinv⟩ := nearestN_inv idx (Point.mk pt none) 40 hd1 hpart1
    (by decide)
  have hlen := (knnInv_final 40 3 (Point.mk pt none) _ _ hinv).2.2.2.1
  have hrs : rs = { entries := rs.entries, cursor := 0 } := by
    cases rs; simp only [ResultSet.mk.injEq, true_and]; exact hcur
  have hdrain : drainLoop rs.entries.length rs []
      = some (rs.entries.map (fun e => [e.1.coord 0, e.1.coord 1, e.1.coord 2])) := by
    conv_lhs => rw [hrs]
    rw [drainLoop_all rs.entries rs.entries.length 0 [] (by omega)]
    simp
  have hargc1 : ¬ ((argv.length : Int) - 1 ≠ 1) := by rw [hargc]; decide
  have hcreate : kd_create 3 = .ok { dims := 3, root := .absent, size := 0 } := rfl
  have hquery : kd_nearest_n idx pt 40 = .ok rs := hq
  have hwr : ∃ lines, write_points_in_vtk { env with writable := fun _ => true } outputPath
      (rs.entries.map (fun e => [e.1.coord 0, e.1.coord 1, e.1.coord 2]))
        = .written lines := by
    have hl : (rs.entries.map (fun e => [e.1.coord 0, e.1.coord 1, e.1.coord 2])).length
        ≤ 40 := by
      rw [List.length_map, hlen]; exact Nat.min_le_left _ _
    have h1 := write_points_eq { env with writable := fun _ => true }
      outputPath (rs.entries.map (fun e => [e.1.coord 0, e.1.coord 1, e.1.coord 2]))
      (by
        intro p hp
        obtain ⟨e, _, rfl⟩ := List.mem_map.mp hp
        rfl)
      (by omega) rfl
    exact ⟨_, h1⟩
  obtain ⟨lines, hlines⟩ := hwr
  refine ⟨idx, rs, hb, hq, ?_, ?_, ?_, ?_, ?_, ?_⟩
  · simp only [main, hargc1, if_false, hread, hcreate, hloop, hquery, hdrain]
    split <;> rfl
  · simp only [main, hargc1, if_false, hread, hcreate, hloop, hquery, hdrain]
    split <;> rfl
  · simp only [main, hargc1, if_false, hread, hcreate, hloop, hquery, hdrain]
    split <;> rfl
  · simp only [main, hargc1, if_false, hread, hcreate, hloop, hquery, hdrain]
    split <;> rfl
  · intro hw
    have hwrite : write_points_in_vtk env outputPath
        (rs.entries.map (fun e => [e.1.coord 0, e.1.coord 1, e.1.coord 2]))
          = .written lines := by
      simp only [write_points_in_vtk, hw, if_true] at hlines ⊢
      exact hlines
    simp only [main, hargc1, if_false, hread, hcreate, hloop, hquery, hdrain, hwrite]
    simp
  · intro hw
    have hwrite : write_points_in_vtk env outputPath
        (rs.entries.map (fun e => [e.1.coord 0, e.1.coord 1, e.1.coord 2])) = .crashed := by
      simp [write_points_in_vtk, hw]
    simp only [main, hargc1, if_false, hread, hcreate, hloop, hquery, hdrain, hwrite]
    simp

/-- The run of `main` does not depend on its argument. -/
theorem main_argument_irrelevant (env : Env) (prog p q : String) :
    main env [prog, p] = main env [prog, q] := rfl

/-- C3 (the code at the failing input): started with the argument `cloud.vtk`, a file
that exists and holds one point, while `inputs/surface_cloud_points.vtk` does not
exist, `main` gives the fixed path to `fopen`, reads no point and exits with status
`1`. -/
theorem main_ignores_argument :
    (exampleEnv "cloud.vtk" "POINTS 1 float\n1 2 3\n" false).file "cloud.vtk"
        = some "POINTS 1 float\n1 2 3\n"
      ∧ (main (exampleEnv "cloud.vtk" "POINTS 1 float\n1 2 3\n" false)
          ["./kdtree", "cloud.vtk"]).opened = some "inputs/surface_cloud_points.vtk"
      ∧ (main (exampleEnv "cloud.vtk" "POINTS 1 float\n1 2 3\n" false)
          ["./kdtree", "cloud.vtk"]).points = none
      ∧ (main (exampleEnv "cloud.vtk" "POINTS 1 float\n1 2 3\n" false)
          ["./kdtree", "cloud.vtk"]).outcome = .exited 1 := by
  decide

/-- C6: `main` ends with the non-zero status `1` whenever the input file cannot be
opened, and then has read no point, built no index and written no file; it ends with
status `0` whenever reading, insertion, the query and the write have all completed;
and with one argument, a read that returns and an output file that can be opened all
of them do complete. -/
theorem main_exit_status (env : Env) (argv : List String) :
    (env.file inputPath = none →
        (main env argv).outcome = .exited 1 ∧ (main env argv).points = none
          ∧ (main env argv).index = none ∧ (main env argv).output = none)
      ∧ ((main env argv).points.isSome = true ∧ (main env argv).index.isSome = true
          ∧ (main env argv).results.isSome = true ∧ (main env argv).output.isSome = true →
        (main env argv).outcome = .exited 0)
      ∧ (∀ pts, argv.length = 2 → read_cloud_points_from_vtk env inputPath = .returned pts →
          env.writable outputPath = true →
          (main env argv).outcome = .exited 0 ∧ (main env argv).points.isSome = true
            ∧ (main env argv).index.isSome = true ∧ (main env argv).results.isSome = true
            ∧ (main env argv).output.isSome = true) := by
  refine ⟨?_, ?_, ?_⟩
  · intro hfile
    have hread : read_cloud_points_from_vtk env inputPath = .exitFailure := by
      simp [read_cloud_points_from_vtk, hfile]
    simp only [main, hread]
    split <;> exact ⟨rfl, rfl, rfl, rfl⟩
  · intro h
    have h4 := h.2.2.2
    revert h4
    simp only [main]
    repeat' split
    all_goals simp
  · intro pts hargc hread hw
    obtain ⟨idx, rs, _, _, _, h4, h5, h6, h7, _⟩ := main_after_read env argv pts hargc hread
    obtain ⟨h8, lines, h9, _⟩ := h7 hw
    rw [h4, h5, h6, h9]
    exact ⟨h8, rfl, rfl, rfl, rfl⟩

/-- Witness for `main_exit_status`: a run with no input file, and a run that
completes. -/
theorem main_exit_status_witness :
    (exampleEnv "cloud.vtk" "" false).file inputPath = none
      ∧ (main (exampleEnv "cloud.vtk" "" false) ["./kdtree", "cloud.vtk"]).outcome = .exited 1
      ∧ read_cloud_points_from_vtk (exampleEnv inputPath "POINTS 1 float\n1 2 3\n" false)
          inputPath = .returned [[1, 2, 3]]
      ∧ (main (exampleEnv inputPath "POINTS 1 float\n1 2 3\n" false)
          ["./kdtree", "cloud.vtk"]).outcome = .exited 0 :=
  ⟨rfl,
    ((main_exit_status (exampleEnv "cloud.vtk" "" false) ["./kdtree", "cloud.vtk"]).1 rfl).1,
    by decide,
    ((main_exit_status (exampleEnv inputPath "POINTS 1 float\n1 2 3\n" false)
      ["./kdtree", "cloud.vtk"]).2.2 [[1, 2, 3]] rfl (by decide) rfl).1⟩

/-- With `NDEBUG`, the index that `main` queries is empty whatever was read. -/
theorem main_index_ndebug (env : Env) (argv : List String) (pts : List (List ℚ))
    (hargc : argv.length = 2) (hnd : env.ndebug = true)
    (hread : read_cloud_points_from_vtk env inputPath = .returned pts) :
    (main env argv).index = some { dims := 3, root := .absent, size := 0 } := by
  obtain ⟨idx, rs, h1, _, _, _, h5, _⟩ := main_after_read env argv pts hargc hread
  rw [hnd] at h1
  simp only [if_true] at h1
  cases h1
  exact h5

/-- C8 (the code at the failing input): compiled with `NDEBUG` and run on a file with
two points, `main` reads both points but calls `kd_nearest_n` on an index of size `0`
that holds no point, gets no result and still exits with status `0`. -/
theorem main_ndebug_inserts_nothing :
    (main (exampleEnv inputPath "POINTS 2 float\n1 2 3\n4 5 6\n" true)
        ["./kdtree", "cloud.vtk"]).points = some [[1, 2, 3], [4, 5, 6]]
      ∧ (main (exampleEnv inputPath "POINTS 2 float\n1 2 3\n4 5 6\n" true)
        ["./kdtree", "cloud.vtk"]).index.map (fun t => t.size) = some 0
      ∧ (main (exampleEnv inputPath "POINTS 2 float\n1 2 3\n4 5 6\n" true)
        ["./kdtree", "cloud.vtk"]).index.map (fun t => t.root.points) = some []
      ∧ (main (exampleEnv inputPath "POINTS 2 float\n1 2 3\n4 5 6\n" true)
        ["./kdtree", "cloud.vtk"]).results.map (fun r => r.entries) = some []
      ∧ (main (exampleEnv inputPath "POINTS 2 float\n1 2 3\n4 5 6\n" true)
        ["./kdtree", "cloud.vtk"]).outcome = .exited 0 := by
  decide

/-! ## The claims about malformed and over-long input, and the witnesses -/

set_option maxRecDepth 20000

theorem utf8ByteSize_longToken (n : Nat) : (longToken n).utf8ByteSize = n := by
  have h : ∀ m, String.utf8ByteSize.go (List.replicate m 'a') = m := by
    intro m
    induction m with
    | zero => rfl
    | succ m ih =>
      have h1 : Char.utf8Size 'a' = 1 := by decide
      simp only [List.replicate_succ, String.utf8ByteSize.go, ih, h1]
  exact h n

theorem tokens_longToken (n : Nat) (hn : 0 < n) (rest : List Char) :
    tokensOf (List.replicate n 'a' ++ ' ' :: rest) = longToken n :: tokensOf rest := by
  refine tokensOf_append_word _ _ ' ' (by decide) ?_ ?_
  · intro h
    have := congrArg List.length h
    simp only [List.length_replicate, List.length_nil] at this
    omega
  · intro c hc
    rw [List.eq_of_mem_replicate hc]
    decide

/-- A file that starts with a token of `n ≥ 200` letters, followed by `POINTS 0 float`:
the first `%s` writes past the end of `str`. -/
theorem read_overrun (n : Nat) (hn : 200 ≤ n) :
    tokens (longToken n ++ " POINTS 0 float\n") = [longToken n, "POINTS", "0", "float"]
      ∧ 200 ≤ (longToken n).utf8ByteSize
      ∧ read_cloud_points_from_vtk
          (exampleEnv inputPath (longToken n ++ " POINTS 0 float\n") false) inputPath
          = .undefined := by
  have htok : tokens (longToken n ++ " POINTS 0 float\n")
      = [longToken n, "POINTS", "0", "float"] := by
    have e : (longToken n ++ " POINTS 0 float\n").data
        = List.replicate n 'a' ++ ' ' :: ("POINTS 0 float\n" : String).data := rfl
    have e2 : tokensOf ("POINTS 0 float\n" : String).data = ["POINTS", "0", "float"] := by
      decide
    rw [tokens, e, tokens_longToken n (by omega), e2]
  have hsize : 200 ≤ (longToken n).utf8ByteSize := by
    rw [utf8ByteSize_longToken]; exact hn
  refine ⟨htok, hsize, ?_⟩
  have hfile : (exampleEnv inputPath (longToken n ++ " POINTS 0 float\n") false).file inputPath
      = some (longToken n ++ " POINTS 0 float\n") := by
    simp [exampleEnv]
  simp only [read_cloud_points_from_vtk, hfile, htok, skipToPoints, hsize, if_true]

/-- C4 (the code at the failing input): the file starts with a token of one million
letters and goes on with `POINTS 0 float`.  It is well formed in the sense of C4 (the
first token equal to `POINTS` is followed by the count `0`, which `%u` reads, and a type
tag), so C4 promises a return with `0` points; but the first `fscanf(file,"%s",str)`
writes a million bytes into `char str[200]`, and the call has no defined result. -/
theorem read_long_token :
    tokens (longToken 1000000 ++ " POINTS 0 float\n")
        = [longToken 1000000, "POINTS", "0", "float"]
      ∧ 200 ≤ (longToken 1000000).utf8ByteSize
      ∧ read_cloud_points_from_vtk
          (exampleEnv inputPath (longToken 1000000 ++ " POINTS 0 float\n") false) inputPath
          = .undefined :=
  read_overrun 1000000 (by decide)

/-- Witness for `read_well_formed`: a file with a header, two points and a `VERTICES`
section. -/
theorem read_well_formed_witness :
    (exampleEnv inputPath "# vtk\nPOINTS 2 float\n1 2 3\n4 5 6\nVERTICES 2 4\n" false).file
        inputPath = some "# vtk\nPOINTS 2 float\n1 2 3\n4 5 6\nVERTICES 2 4\n"
      ∧ tokens "# vtk\nPOINTS 2 float\n1 2 3\n4 5 6\nVERTICES 2 4\n"
          = ["#", "vtk"] ++ "POINTS" :: "2" :: "float"
              :: (["1", "2", "3", "4", "5", "6"] ++ ["VERTICES", "2", "4"])
      ∧ scan_u "2" = some (some 2, "")
      ∧ read_cloud_points_from_vtk
          (exampleEnv inputPath "# vtk\nPOINTS 2 float\n1 2 3\n4 5 6\nVERTICES 2 4\n" false)
          inputPath = .returned (triples [1, 2, 3, 4, 5, 6])
      ∧ triples [1, 2, 3, 4, 5, 6] = [[1, 2, 3], [4, 5, 6]] :=
  ⟨rfl, by decide, by decide,
    (read_well_formed
      (exampleEnv inputPath "# vtk\nPOINTS 2 float\n1 2 3\n4 5 6\nVERTICES 2 4\n" false)
      inputPath "# vtk\nPOINTS 2 float\n1 2 3\n4 5 6\nVERTICES 2 4\n" ["#", "vtk"] "2" "float"
      ["1", "2", "3", "4", "5", "6"] ["VERTICES", "2", "4"] 2 [1, 2, 3, 4, 5, 6]
      rfl (by decide) (by decide) (by decide) (by decide) (by decide) (by decide)).1,
    rfl⟩

theorem exampleLibc_token (x : ℚ) :
    (exampleLibc.fmt_g x).data ≠ []
      ∧ ∀ ch ∈ (exampleLibc.fmt_g x).data, isSpace ch = false := by
  obtain ⟨h1, h2, _⟩ := repr_facts x.floor.toNat
  exact ⟨h1, fun ch hch => (h2 ch hch).2⟩

theorem exampleLibc_reads_back (x : ℚ) :
    exampleLibc.scan_lf (exampleLibc.fmt_g x) = (some ((x.floor.toNat : Nat) : ℚ), "") := by
  obtain ⟨h1, h2, h3⟩ := repr_facts x.floor.toNat
  have hall : (Nat.repr x.floor.toNat).data.all Char.isDigit = true :=
    List.all_eq_true.mpr (fun c hc => (h2 c hc).1)
  simp only [exampleLibc, h1, hall, ne_eq, not_false_eq_true, and_self, if_true, h3]

/-- Witness for `write_read_round_trip`: two points written and read back with the
example library. -/
theorem write_read_round_trip_witness :
    (∀ p ∈ [[(1 : ℚ), 2, 3], [4, 5, 6]], p.length = 3)
      ∧ 2 * [[(1 : ℚ), 2, 3], [4, 5, 6]].length < 2 ^ 32
      ∧ ∃ lines, write_points_in_vtk (exampleEnv inputPath "" false) outputPath
            [[1, 2, 3], [4, 5, 6]] = .written lines
          ∧ read_cloud_points_from_vtk
              ((exampleEnv inputPath "" false).withFile outputPath (fileContent lines))
              outputPath
            = .returned ([[(1 : ℚ), 2, 3], [4, 5, 6]].map
                (List.map (fun x => ((x.floor.toNat : Nat) : ℚ)))) :=
  ⟨by decide, by decide,
    by
      obtain ⟨lines, h1, h2, _⟩ := write_read_round_trip (exampleEnv inputPath "" false)
        outputPath [[1, 2, 3], [4, 5, 6]] (fun x => ((x.floor.toNat : Nat) : ℚ))
        (by decide) (by decide) rfl exampleLibc_token exampleLibc_reads_back
      exact ⟨lines, h1, h2⟩⟩

end KdTree
